import Mathlib

/-!
Verification of the bzip2-rs streaming adapter layer.

The adapters under `src/` (the old `raw.rs`/`reader.rs`/`writer.rs` API, the
newer `bufread.rs`/`write.rs` API and the one-shot helpers of `lib.rs`) are
embedded as executable Lean functions.  The native codec (libbz2) is only
declared in `src/libbz2-sys/src/lib.rs`; its implementation lives outside the
repository, so — following the specification, which treats it as an opaque
streaming capability with input/output cursors, cumulative byte counters and
the fixed status-code contract — it is instantiated here by an executable
model codec (an escape-coded, self-terminating member format) that obeys that
contract: a step consumes input and produces output bounded by the supplied
buffer capacities, advances the cursors and counters by exactly the bytes
processed, returns the `BZ_*` codes of `libbz2-sys`, and stops consuming at
the end of a member.

Machine integers are modelled as `Nat`.  The cumulative 64-bit byte counters
never wrap for any stream the adapters can drive (that would need `2^64`
processed bytes), so adapter-internal counter deltas are embedded as exact
`Nat` differences; the 32-bit half representation of the counters and the
`total_in`/`total_out` assembly of `raw.rs` are modelled faithfully where the
claims are about them.  Loops of the source that have no structural bound are
embedded with explicit fuel, `none` standing for a call that does not return
(non-termination or panic).
-/

namespace Bzip2

/-! ### Native return codes and actions, from `src/libbz2-sys/src/lib.rs` -/

def BZ_RUN : Int := 0
def BZ_FLUSH : Int := 1
def BZ_FINISH : Int := 2

def BZ_OK : Int := 0
def BZ_RUN_OK : Int := 1
def BZ_FLUSH_OK : Int := 2
def BZ_FINISH_OK : Int := 3
def BZ_STREAM_END : Int := 4
def BZ_SEQUENCE_ERROR : Int := -1
def BZ_PARAM_ERROR : Int := -2
def BZ_MEM_ERROR : Int := -3
def BZ_DATA_ERROR : Int := -4
def BZ_DATA_ERROR_MAGIC : Int := -5
def BZ_IO_ERROR : Int := -6
def BZ_UNEXPECTED_EOF : Int := -7
def BZ_OUTBUFF_FULL : Int := -8
def BZ_CONFIG_ERROR : Int := -9

/-- Actions for a compression step, from `src/src/raw.rs` (`Action`). -/
inductive Action where
  | run
  | flush
  | finish
deriving DecidableEq, Repr

/-! ### Model codec

Modelled from the spec: the native compression algorithm.  A compressed
member is `[66] ++ escAll S ++ [255, 0]`: a one-byte magic header, the data
with every `255` byte escaped as `255 255`, and the terminator `255 0`.
The format is self-terminating, so independently terminated members can be
concatenated, and decoding stops exactly at the end of a member. -/

/-- Modelled from the spec: escape of one data byte in the model format. -/
def esc (b : Nat) : List Nat :=
  if b = 255 then [255, 255] else [b]

/-- Modelled from the spec: escape of a whole byte sequence. -/
def escAll : List Nat → List Nat
  | [] => []
  | b :: rest => esc b ++ escAll rest

/-- Modelled from the spec: the compression loop of one native step.  Consumes
input bytes, emitting their escapes, as long as the remaining output room can
hold the next escape.  Returns the emitted bytes and the unconsumed input
(the advanced input cursor). -/
def runEsc : List Nat → Nat → List Nat × List Nat
  | [], _ => ([], [])
  | b :: rest, room =>
    if (esc b).length ≤ room then
      let p := runEsc rest (room - (esc b).length)
      ((esc b) ++ p.1, p.2)
    else ([], b :: rest)

/-- Modelled from the spec: the native compression state behind `bz_stream`:
whether the member header was emitted, whether the member was terminated
(StreamEnd reached), and the cumulative byte counters. -/
structure CmpSt where
  headerDone : Bool
  finished : Bool
  totalIn : Nat
  totalOut : Nat
deriving DecidableEq, Repr

/-- Modelled from the spec: a fresh compression state (`BZ2_bzCompressInit`). -/
def CmpSt.init : CmpSt :=
  { headerDone := false, finished := false, totalIn := 0, totalOut := 0 }

/-- Continue code reported by a compression step for each action. -/
def contCode : Action → Int
  | .run => BZ_RUN_OK
  | .flush => BZ_FLUSH_OK
  | .finish => BZ_FINISH_OK

/-- Modelled from the spec: one native compression step (`BZ2_bzCompress`).
Returns the new state, the unconsumed input, the bytes produced (at most
`room` of them) and the status code.  On `finish` with all input consumed and
room for the two terminator bytes the member is terminated and
`BZ_STREAM_END` is returned. -/
def bzCompress (s : CmpSt) (input : List Nat) (room : Nat) (action : Action) :
    CmpSt × List Nat × List Nat × Int :=
  if s.finished then (s, input, [], BZ_SEQUENCE_ERROR)
  else if s.headerDone = false ∧ room = 0 then (s, input, [], contCode action)
  else
    let hdr : List Nat := if s.headerDone then [] else [66]
    let room1 := room - hdr.length
    let p := runEsc input room1
    let emitted := hdr ++ p.1
    let base : CmpSt :=
      { headerDone := true, finished := false,
        totalIn := s.totalIn + (input.length - p.2.length),
        totalOut := s.totalOut + emitted.length }
    match action with
    | .run => (base, p.2, emitted, BZ_RUN_OK)
    | .flush => (base, p.2, emitted, BZ_RUN_OK)
    | .finish =>
      if p.2 = [] ∧ p.1.length + 2 ≤ room1 then
        ({ base with finished := true, totalOut := base.totalOut + 2 },
          [], emitted ++ [255, 0], BZ_STREAM_END)
      else (base, p.2, emitted, BZ_FINISH_OK)

/-- Modelled from the spec: parse phase of the native decompression state. -/
inductive DPhase where
  | magic
  | body
  | escp
  | fin
deriving DecidableEq, Repr

/-- Modelled from the spec: the core of one native decompression step.
Consumes input bytes through the phase machine, emitting at most `room`
decoded bytes, and stops at the member terminator (without consuming past
it), on a full output buffer, or on exhausted input.  Returns the new phase,
the unconsumed input, the decoded bytes and the status code. -/
def dstep : List Nat → DPhase → Nat → DPhase × List Nat × List Nat × Int
  | input, .fin, _ => (.fin, input, [], BZ_SEQUENCE_ERROR)
  | [], .magic, _ => (.magic, [], [], BZ_OK)
  | [], .body, _ => (.body, [], [], BZ_OK)
  | [], .escp, _ => (.escp, [], [], BZ_OK)
  | b :: rest, .magic, room =>
    if b = 66 then dstep rest .body room
    else (.magic, b :: rest, [], BZ_DATA_ERROR_MAGIC)
  | b :: rest, .body, room =>
    if b = 255 then dstep rest .escp room
    else if room = 0 then (.body, b :: rest, [], BZ_OK)
    else
      let r := dstep rest .body (room - 1)
      (r.1, r.2.1, b :: r.2.2.1, r.2.2.2)
  | b :: rest, .escp, room =>
    if b = 0 then (.fin, rest, [], BZ_STREAM_END)
    else if b = 255 then
      if room = 0 then (.escp, b :: rest, [], BZ_OK)
      else
        let r := dstep rest .body (room - 1)
        (r.1, r.2.1, 255 :: r.2.2.1, r.2.2.2)
    else (.escp, b :: rest, [], BZ_DATA_ERROR)

/-- Modelled from the spec: the native decompression state behind
`bz_stream`: the parse phase and the cumulative byte counters. -/
structure DecSt where
  phase : DPhase
  totalIn : Nat
  totalOut : Nat
deriving DecidableEq, Repr

/-- Modelled from the spec: a fresh decompression state
(`BZ2_bzDecompressInit`). -/
def DecSt.init : DecSt :=
  { phase := .magic, totalIn := 0, totalOut := 0 }

/-- Modelled from the spec: one native decompression step
(`BZ2_bzDecompress`), advancing the counters by the bytes processed. -/
def bzDecompress (s : DecSt) (input : List Nat) (room : Nat) :
    DecSt × List Nat × List Nat × Int :=
  let r := dstep input s.phase room
  ({ phase := r.1,
     totalIn := s.totalIn + (input.length - r.2.1.length),
     totalOut := s.totalOut + r.2.2.1.length },
    r.2.1, r.2.2.1, r.2.2.2)

/-! ### The 64-bit counter assembly of `src/src/raw.rs`

The native `bz_stream` stores each cumulative counter as two 32-bit halves;
`Stream::total_in`/`Stream::total_out` assemble them as
`(lo as u64) | ((hi as u64) << 32)`. -/

/-- Low 32-bit half of a native counter. -/
def lo32 (n : Nat) : Nat := n % 2 ^ 32

/-- High 32-bit half of a native counter. -/
def hi32 (n : Nat) : Nat := n / 2 ^ 32 % 2 ^ 32

/-- `Stream::total_in`/`total_out` from `src/src/raw.rs`: assembly of the two
32-bit counter halves into one 64-bit value. -/
def assemble64 (n : Nat) : Nat := lo32 n ||| (hi32 n <<< 32)

/-- `Stream::total_in` for a compression stream (`src/src/raw.rs`). -/
def CmpSt.total_in (s : CmpSt) : Nat := assemble64 s.totalIn

/-- `Stream::total_out` for a compression stream (`src/src/raw.rs`). -/
def CmpSt.total_out (s : CmpSt) : Nat := assemble64 s.totalOut

/-- `Stream::total_in` for a decompression stream (`src/src/raw.rs`). -/
def DecSt.total_in (s : DecSt) : Nat := assemble64 s.totalIn

/-- `Stream::total_out` for a decompression stream (`src/src/raw.rs`). -/
def DecSt.total_out (s : DecSt) : Nat := assemble64 s.totalOut

theorem lor_shift32 (a b : Nat) (h : a < 2 ^ 32) :
    a ||| (b <<< 32) = 2 ^ 32 * b + a := by
  rw [Nat.shiftLeft_eq]
  apply Nat.eq_of_testBit_eq
  intro i
  have hz : ∀ j, (2 ^ 32 * b).testBit j = if j < 32 then false else b.testBit (j - 32) := by
    intro j
    have h0 : (0 : Nat) < 2 ^ 32 := by positivity
    simpa using Nat.testBit_mul_pow_two_add b h0 j
  rw [Nat.testBit_lor, mul_comm b (2 ^ 32), Nat.testBit_mul_pow_two_add b h, hz i]
  by_cases hi : i < 32
  · simp [hi]
  · have ha : a.testBit i = false := by
      apply Nat.testBit_lt_two_pow
      exact lt_of_lt_of_le h (Nat.pow_le_pow_right (by norm_num) (by omega))
    simp [hi, ha]

theorem assemble64_eq (n : Nat) : assemble64 n = n % 2 ^ 64 := by
  have h : lo32 n < 2 ^ 32 := Nat.mod_lt _ (by positivity)
  rw [assemble64, lor_shift32 _ _ h, lo32, hi32]
  have h64 : (2 : Nat) ^ 64 = 2 ^ 32 * 2 ^ 32 := by norm_num
  rw [h64, Nat.mod_mul]
  ring

theorem runEsc_out_le (input : List Nat) (room : Nat) :
    (runEsc input room).1.length ≤ room := by
  induction input generalizing room with
  | nil => simp [runEsc]
  | cons b rest ih =>
    simp only [runEsc]
    by_cases h : (esc b).length ≤ room
    · simp only [h, if_pos]
      have := ih (room - (esc b).length)
      simp only [List.length_append]
      omega
    · simp [h]

theorem runEsc_suffix (input : List Nat) (room : Nat) :
    ∃ t, input = t ++ (runEsc input room).2 ∧
      (runEsc input room).1 = escAll t := by
  induction input generalizing room with
  | nil => exact ⟨[], by simp [runEsc, escAll]⟩
  | cons b rest ih =>
    by_cases h : (esc b).length ≤ room
    · obtain ⟨t, ht1, ht2⟩ := ih (room - (esc b).length)
      refine ⟨b :: t, ?_, ?_⟩
      · simpa [runEsc, h] using congrArg (b :: ·) ht1
      · simp [runEsc, h, escAll, ht2]
    · exact ⟨[], by simp [runEsc, h, escAll]⟩

theorem dstep_out_le (input : List Nat) (ph : DPhase) (room : Nat) :
    (dstep input ph room).2.2.1.length ≤ room := by
  induction input generalizing ph room with
  | nil => cases ph <;> simp [dstep]
  | cons b rest ih =>
    cases ph with
    | fin => simp [dstep]
    | magic =>
      by_cases h : b = 66
      · simpa [dstep, h] using ih .body room
      · simp [dstep, h]
    | body =>
      by_cases h : b = 255
      · simpa [dstep, h] using ih .escp room
      · by_cases hr : room = 0
        · simp [dstep, h, hr]
        · have := ih .body (room - 1)
          simp only [dstep, if_neg h, if_neg hr, List.length_cons]
          omega
    | escp =>
      by_cases h0 : b = 0
      · simp [dstep, h0]
      · by_cases h : b = 255
        · by_cases hr : room = 0
          · simp [dstep, h0, h, hr]
          · have := ih .body (room - 1)
            simp only [dstep, if_neg h0, if_pos h, if_neg hr, List.length_cons]
            omega
        · simp [dstep, h0, h]

theorem dstep_in_suffix (input : List Nat) (ph : DPhase) (room : Nat) :
    ∃ t, input = t ++ (dstep input ph room).2.1 := by
  induction input generalizing ph room with
  | nil => cases ph <;> exact ⟨[], by simp [dstep]⟩
  | cons b rest ih =>
    cases ph with
    | fin => exact ⟨[], by simp [dstep]⟩
    | magic =>
      by_cases h : b = 66
      · obtain ⟨t, ht⟩ := ih .body room
        exact ⟨b :: t, by simp [dstep, h]; exact ht⟩
      · exact ⟨[], by simp [dstep, h]⟩
    | body =>
      by_cases h : b = 255
      · obtain ⟨t, ht⟩ := ih .escp room
        exact ⟨b :: t, by simp [dstep, h]; exact ht⟩
      · by_cases hr : room = 0
        · exact ⟨[], by simp [dstep, h, hr]⟩
        · obtain ⟨t, ht⟩ := ih .body (room - 1)
          exact ⟨b :: t, by simp [dstep, h, hr]; exact ht⟩
    | escp =>
      by_cases h0 : b = 0
      · exact ⟨[b], by simp [dstep, h0]⟩
      · by_cases h : b = 255
        · by_cases hr : room = 0
          · exact ⟨[], by simp [dstep, h0, h, hr]⟩
          · obtain ⟨t, ht⟩ := ih .body (room - 1)
            exact ⟨b :: t, by simp [dstep, h0, h, hr]; exact ht⟩
        · exact ⟨[], by simp [dstep, h0, h]⟩

theorem runEsc_rest_le (input : List Nat) (room : Nat) :
    (runEsc input room).2.length ≤ input.length := by
  obtain ⟨t, ht, -⟩ := runEsc_suffix input room
  have hlen := congrArg List.length ht
  simp only [List.length_append] at hlen
  omega

theorem bzCompress_counters (s : CmpSt) (input : List Nat) (room : Nat)
    (action : Action) :
    s.totalIn ≤ (bzCompress s input room action).1.totalIn ∧
      s.totalOut ≤ (bzCompress s input room action).1.totalOut ∧
      (bzCompress s input room action).1.totalIn ≤ s.totalIn + input.length ∧
      (bzCompress s input room action).1.totalOut ≤ s.totalOut + room + 2 := by
  have hout := runEsc_out_le input
  have hrest := runEsc_rest_le input
  by_cases hf : s.finished
  · refine ⟨?_, ?_, ?_, ?_⟩ <;> (simp [bzCompress, hf]; try omega)
  · by_cases hd : s.headerDone
    · have h1 := hout room
      have h2 := hrest room
      cases action with
      | run =>
        refine ⟨?_, ?_, ?_, ?_⟩ <;> (simp [bzCompress, hf, hd]; try omega)
      | flush =>
        refine ⟨?_, ?_, ?_, ?_⟩ <;> (simp [bzCompress, hf, hd]; try omega)
      | finish =>
        by_cases hc : (runEsc input room).2 = [] ∧
            (runEsc input room).1.length + 2 ≤ room
        · refine ⟨?_, ?_, ?_, ?_⟩ <;> (simp [bzCompress, hf, hd, hc]; try omega)
        · refine ⟨?_, ?_, ?_, ?_⟩ <;> (simp [bzCompress, hf, hd, hc]; try omega)
    · by_cases h0 : room = 0
      · refine ⟨?_, ?_, ?_, ?_⟩ <;> (simp [bzCompress, hf, hd, h0]; try omega)
      · have h1 := hout (room - 1)
        have h2 := hrest (room - 1)
        cases action with
        | run =>
          refine ⟨?_, ?_, ?_, ?_⟩ <;> (simp [bzCompress, hf, hd, h0]; try omega)
        | flush =>
          refine ⟨?_, ?_, ?_, ?_⟩ <;> (simp [bzCompress, hf, hd, h0]; try omega)
        | finish =>
          by_cases hc : (runEsc input (room - 1)).2 = [] ∧
              (runEsc input (room - 1)).1.length + 2 ≤ room - 1
          · refine ⟨?_, ?_, ?_, ?_⟩ <;>
              (simp [bzCompress, hf, hd, h0, hc]; try omega)
          · refine ⟨?_, ?_, ?_, ?_⟩ <;>
              (simp [bzCompress, hf, hd, h0, hc]; try omega)

theorem bzDecompress_counters (s : DecSt) (input : List Nat) (room : Nat) :
    s.totalIn ≤ (bzDecompress s input room).1.totalIn ∧
      s.totalOut ≤ (bzDecompress s input room).1.totalOut ∧
      (bzDecompress s input room).1.totalIn ≤ s.totalIn + input.length ∧
      (bzDecompress s input room).1.totalOut ≤ s.totalOut + room := by
  have hout := dstep_out_le input s.phase room
  simp only [bzDecompress]
  refine ⟨by omega, by omega, by omega, by omega⟩

/-- C7: for every Stream, total_in() and total_out() are monotonically
non-decreasing across every compress/decompress step, each is the 64-bit
value formed from the native low/high 32-bit halves (equal to the exact
cumulative counter reduced mod 2^64), and they remain valid (readable) at
any point including after StreamEnd: the accessors are total, and a step on
a finished stream leaves them unchanged. -/
theorem c7_byte_count_invariant (s : CmpSt) (d : DecSt) (input : List Nat)
    (room : Nat) (action : Action)
    (hc1 : s.totalIn + input.length < 2 ^ 64)
    (hc2 : s.totalOut + room + 2 < 2 ^ 64)
    (hd1 : d.totalIn + input.length < 2 ^ 64)
    (hd2 : d.totalOut + room < 2 ^ 64) :
    (s.total_in ≤ (bzCompress s input room action).1.total_in ∧
      s.total_out ≤ (bzCompress s input room action).1.total_out) ∧
    (d.total_in ≤ (bzDecompress d input room).1.total_in ∧
      d.total_out ≤ (bzDecompress d input room).1.total_out) ∧
    (∀ t : CmpSt, t.total_in = lo32 t.totalIn ||| (hi32 t.totalIn <<< 32) ∧
      t.total_in = t.totalIn % 2 ^ 64 ∧
      t.total_out = lo32 t.totalOut ||| (hi32 t.totalOut <<< 32) ∧
      t.total_out = t.totalOut % 2 ^ 64) ∧
    (∀ t : DecSt, t.total_in = t.totalIn % 2 ^ 64 ∧
      t.total_out = t.totalOut % 2 ^ 64) ∧
    (s.finished = true → (bzCompress s input room action).1.total_in = s.total_in ∧
      (bzCompress s input room action).1.total_out = s.total_out) := by
  obtain ⟨hm1, hm2, hb1, hb2⟩ := bzCompress_counters s input room action
  obtain ⟨hm3, hm4, hb3, hb4⟩ := bzDecompress_counters d input room
  refine ⟨⟨?_, ?_⟩, ⟨?_, ?_⟩, ?_, ?_, ?_⟩
  · rw [CmpSt.total_in, CmpSt.total_in, assemble64_eq, assemble64_eq,
      Nat.mod_eq_of_lt (by omega), Nat.mod_eq_of_lt (by omega)]
    exact hm1
  · rw [CmpSt.total_out, CmpSt.total_out, assemble64_eq, assemble64_eq,
      Nat.mod_eq_of_lt (by omega), Nat.mod_eq_of_lt (by omega)]
    exact hm2
  · rw [DecSt.total_in, DecSt.total_in, assemble64_eq, assemble64_eq,
      Nat.mod_eq_of_lt (by omega), Nat.mod_eq_of_lt (by omega)]
    exact hm3
  · rw [DecSt.total_out, DecSt.total_out, assemble64_eq, assemble64_eq,
      Nat.mod_eq_of_lt (by omega), Nat.mod_eq_of_lt (by omega)]
    exact hm4
  · intro t
    exact ⟨rfl, assemble64_eq t.totalIn, rfl, assemble64_eq t.totalOut⟩
  · intro t
    exact ⟨assemble64_eq t.totalIn, assemble64_eq t.totalOut⟩
  · intro hfin
    simp [bzCompress, hfin]
theorem c7_byte_count_invariant_witness :
    CmpSt.init.totalIn + 3 < 2 ^ 64 ∧ CmpSt.init.totalOut + 10 + 2 < 2 ^ 64 ∧
      DecSt.init.totalIn + 3 < 2 ^ 64 ∧ DecSt.init.totalOut + 10 < 2 ^ 64 ∧
      (CmpSt.init.total_in ≤ (bzCompress CmpSt.init [1, 2, 3] 10 .run).1.total_in ∧
        CmpSt.init.total_out ≤ (bzCompress CmpSt.init [1, 2, 3] 10 .run).1.total_out) :=
  ⟨by decide, by decide, by decide, by decide,
    (c7_byte_count_invariant CmpSt.init DecSt.init [1, 2, 3] 10 .run
      (by decide) (by decide) (by decide) (by decide)).1⟩

/-! ### Models of the wrapped I/O endpoints

The adapters are generic over `R: Read`/`BufRead` and `W: Write`.  We model
a sink as an accumulating byte list with a `flushed` marker and a `broken`
switch that makes its writes/flushes fail (to exercise the error paths); a
`Vec<u8>` sink is the healthy instance.  A source is a byte list with a read
cursor and an optional failure switch. -/

/-- Model of `std::io::Error` values the embedded code distinguishes. -/
inductive IoErr where
  | invalidInput
  | writeZero
  | src (k : Nat)
deriving DecidableEq, Repr

/-- Model of a generic `Write` sink. -/
structure MSink where
  out : List Nat
  flushed : Bool
  broken : Bool
deriving DecidableEq, Repr

/-- A fresh healthy sink (models `Vec::new()`). -/
def vecSink : MSink := { out := [], flushed := false, broken := false }

/-- `Write::write_all` on the model sink. -/
def MSink.writeAll (w : MSink) (data : List Nat) : Except IoErr MSink :=
  if w.broken then .error (.src 0)
  else .ok { w with out := w.out ++ data }

/-- `Write::flush` on the model sink. -/
def MSink.flush (w : MSink) : Except IoErr MSink :=
  if w.broken then .error (.src 0)
  else .ok { w with flushed := true }

/-- A `Vec<u8>` with fixed spare capacity, as used for the adapter
scratch buffers (`Vec::with_capacity`). -/
structure BVec where
  data : List Nat
  cap : Nat
deriving DecidableEq, Repr

/-- `Stream::compress_vec` from `src/src/raw.rs`: runs one compression step
writing into the spare capacity of `buf` (from its length to its capacity)
and adjusts the length by exactly the bytes produced.  Returns the new
stream, the new buffer, the advanced input cursor and the status code. -/
def CmpSt.compress_vec (s : CmpSt) (input : List Nat) (buf : BVec)
    (action : Action) : CmpSt × BVec × List Nat × Int :=
  let r := bzCompress s input (buf.cap - buf.data.length) action
  (r.1, { buf with data := buf.data ++ r.2.2.1 }, r.2.1, r.2.2.2)

/-- `Stream::decompress_vec` from `src/src/raw.rs`. -/
def DecSt.decompress_vec (s : DecSt) (input : List Nat) (buf : BVec) :
    DecSt × BVec × List Nat × Int :=
  let r := bzDecompress s input (buf.cap - buf.data.length)
  (r.1, { buf with data := buf.data ++ r.2.2.1 }, r.2.1, r.2.2.2)

/-! ### The write-oriented adapters of `src/src/writer.rs` -/

/-- `writer::BzCompressor` (src/src/writer.rs): compression stream writing
compressed output to a wrapped sink held in an option slot. -/
structure BzCompressorW where
  stream : CmpSt
  w : Option MSink
  buf : BVec
deriving DecidableEq, Repr

/-- `BzCompressor::new`: fresh stream, sink in the slot, scratch buffer with
128 KiB capacity. -/
def BzCompressorW.new (w : MSink) : BzCompressorW :=
  { stream := CmpSt.init, w := some w, buf := { data := [], cap := 128 * 1024 } }

/-- `BzCompressor::do_write` (src/src/writer.rs lines 37-56): drain the
scratch buffer to the sink, run one `compress_vec` step, return the input
bytes consumed (`total_in` delta); on `Finish` also drain the produced
output.  `none` models a panic (negative status) or a missing sink;
errors carry the mutated adapter state alongside the `io::Error`. -/
def BzCompressorW.do_write (c : BzCompressorW) (data : List Nat)
    (action : Action) :
    Option (Except (IoErr × BzCompressorW) (Nat × BzCompressorW)) :=
  match c.w with
  | none => none
  | some w0 =>
    let d1 : Except IoErr (MSink × BVec) :=
      if 0 < c.buf.data.length then
        match w0.writeAll c.buf.data with
        | .error e => .error e
        | .ok w1 => .ok (w1, { c.buf with data := [] })
      else .ok (w0, c.buf)
    match d1 with
    | .error e => some (.error (e, c))
    | .ok (w1, buf1) =>
      let before := c.stream.totalIn
      let r := CmpSt.compress_vec c.stream data buf1 action
      let written := r.1.totalIn - before
      if r.2.2.2 < 0 then none
      else if action = .finish ∧ 0 < r.2.1.data.length then
        match w1.writeAll r.2.1.data with
        | .error e =>
          some (.error (e, { stream := r.1, w := some w1, buf := r.2.1 }))
        | .ok w2 =>
          some (.ok (written,
            { stream := r.1, w := some w2, buf := { r.2.1 with data := [] } }))
      else some (.ok (written, { stream := r.1, w := some w1, buf := r.2.1 }))

/-- `BzCompressor::into_inner` (src/src/writer.rs lines 59-65): finish the
stream with one `Finish` write; on error return the adapter (still owning
the sink) together with the error, on success take the sink out of the slot
and return it. -/
def BzCompressorW.into_inner (c : BzCompressorW) :
    Option (Except (BzCompressorW × IoErr) MSink) :=
  match c.do_write [] .finish with
  | none => none
  | some (.error (e, c1)) => some (.error (c1, e))
  | some (.ok (_, c1)) =>
    match c1.w with
    | none => none
    | some w => some (.ok w)

/-- `Write::write` for `writer::BzCompressor` (src/src/writer.rs lines
84-90). -/
def BzCompressorW.write (c : BzCompressorW) (data : List Nat) :
    Option (Except (IoErr × BzCompressorW) (Nat × BzCompressorW)) :=
  if data.length ≠ 0 then c.do_write data .run
  else some (.ok (0, c))

/-- `Write::flush` for `writer::BzCompressor` (src/src/writer.rs lines
92-95): a single `Flush` write, then flush the wrapped sink. -/
def BzCompressorW.flush (c : BzCompressorW) :
    Option (Except (IoErr × BzCompressorW) BzCompressorW) :=
  match c.do_write [] .flush with
  | none => none
  | some (.error (e, c1)) => some (.error (e, c1))
  | some (.ok (_, c1)) =>
    match c1.w with
    | none => none
    | some w =>
      match w.flush with
      | .error e => some (.error (e, c1))
      | .ok w2 => some (.ok { c1 with w := some w2 })

/-- `writer::BzDecompressor` (src/src/writer.rs). -/
structure BzDecompressorW where
  stream : DecSt
  w : Option MSink
  buf : BVec
  done : Bool
deriving DecidableEq, Repr

/-- `BzDecompressor::new`. -/
def BzDecompressorW.new (w : MSink) : BzDecompressorW :=
  { stream := DecSt.init, w := some w,
    buf := { data := [], cap := 128 * 1024 }, done := false }

/-- `BzDecompressor::do_write` (src/src/writer.rs lines 118-148): loop of
drain, one `decompress_vec` step (skipped once `done`), StreamEnd/panic
check; with `Run` and no input consumed the loop repeats, with `Finish` the
produced output is drained before returning.  The loop has no structural
bound, so it takes fuel; `none` is a call that panics or never returns. -/
def BzDecompressorW.do_write : Nat → BzDecompressorW → List Nat → Action →
    Option (Except (IoErr × BzDecompressorW) (Nat × BzDecompressorW))
  | 0, _, _, _ => none
  | fuel + 1, c, data, action =>
    match c.w with
    | none => none
    | some w0 =>
      let d1 : Except IoErr (MSink × BVec) :=
        if 0 < c.buf.data.length then
          match w0.writeAll c.buf.data with
          | .error e => .error e
          | .ok w1 => .ok (w1, { c.buf with data := [] })
        else .ok (w0, c.buf)
      match d1 with
      | .error e => some (.error (e, c))
      | .ok (w1, buf1) =>
        let step :=
          if c.done then
            (0, (0 : Int),
              { stream := c.stream, w := some w1, buf := buf1, done := c.done })
          else
            let before := c.stream.totalIn
            let r := DecSt.decompress_vec c.stream data buf1
            (r.1.totalIn - before, r.2.2.2,
              { stream := r.1, w := some w1, buf := r.2.1, done := c.done })
        let written := step.1
        let rc := step.2.1
        let c2 := step.2.2
        let cont : BzDecompressorW →
            Option (Except (IoErr × BzDecompressorW) (Nat × BzDecompressorW)) :=
          fun c3 =>
            match action with
            | .run =>
              if written = 0 then BzDecompressorW.do_write fuel c3 data action
              else some (.ok (written, c3))
            | .flush => some (.ok (written, c3))
            | .finish =>
              if 0 < c3.buf.data.length then
                match c3.w with
                | none => none
                | some w2 =>
                  match w2.writeAll c3.buf.data with
                  | .error e => some (.error (e, c3))
                  | .ok w3 =>
                    some (.ok (written,
                      { c3 with w := some w3, buf := { c3.buf with data := [] } }))
              else some (.ok (written, c3))
        if rc = BZ_STREAM_END then cont { c2 with done := true }
        else if rc < 0 then none
        else cont c2

/-- `BzDecompressor::into_inner` (src/src/writer.rs lines 151-157). -/
def BzDecompressorW.into_inner (fuel : Nat) (c : BzDecompressorW) :
    Option (Except (BzDecompressorW × IoErr) MSink) :=
  match BzDecompressorW.do_write fuel c [] .finish with
  | none => none
  | some (.error (e, c1)) => some (.error (c1, e))
  | some (.ok (_, c1)) =>
    match c1.w with
    | none => none
    | some w => some (.ok w)

/-- `Write::write` for `writer::BzDecompressor` (src/src/writer.rs lines
176-178). -/
def BzDecompressorW.write (fuel : Nat) (c : BzDecompressorW) (data : List Nat) :
    Option (Except (IoErr × BzDecompressorW) (Nat × BzDecompressorW)) :=
  BzDecompressorW.do_write fuel c data .run

/-- `std::io::Write::write_all` driving `writer::BzCompressor` (used by
`lib.rs::compress` through `wr.write_all(data)`): write repeatedly, slicing
off the consumed bytes, until all data is accepted; a write that accepts
zero bytes is a `WriteZero` error. -/
def writeAllC : Nat → BzCompressorW → List Nat →
    Option (Except (IoErr × BzCompressorW) BzCompressorW)
  | 0, _, _ => none
  | fuel + 1, c, data =>
    if data.isEmpty then some (.ok c)
    else
      match c.write data with
      | none => none
      | some (.error (e, c1)) => some (.error (e, c1))
      | some (.ok (n, c1)) =>
        if n = 0 then some (.error (.writeZero, c1))
        else writeAllC fuel c1 (data.drop n)

/-- `std::io::Write::write_all` driving `writer::BzDecompressor` (used by
`lib.rs::decompress`). -/
def writeAllD : Nat → BzDecompressorW → List Nat →
    Option (Except (IoErr × BzDecompressorW) BzDecompressorW)
  | 0, _, _ => none
  | fuel + 1, c, data =>
    if data.isEmpty then some (.ok c)
    else
      match BzDecompressorW.write (data.length + 1) c data with
      | none => none
      | some (.error (e, c1)) => some (.error (e, c1))
      | some (.ok (n, c1)) =>
        if n = 0 then some (.error (.writeZero, c1))
        else writeAllD fuel c1 (data.drop n)

/-- `compress` from `src/src/lib.rs`: one-shot helper over
`writer::BzCompressor` with a `Vec` sink; `unwrap` panics are `none`. -/
def libCompress (data : List Nat) : Option (List Nat) :=
  match writeAllC (data.length + 1) (BzCompressorW.new vecSink) data with
  | some (.ok c1) =>
    match c1.into_inner with
    | some (.ok w) => some w.out
    | _ => none
  | _ => none

/-- `decompress` from `src/src/lib.rs`: one-shot helper over
`writer::BzDecompressor` with a `Vec` sink. -/
def libDecompress (data : List Nat) : Option (List Nat) :=
  match writeAllD (data.length + 1) (BzDecompressorW.new vecSink) data with
  | some (.ok c1) =>
    match c1.into_inner (data.length + 1) with
    | some (.ok w) => some w.out
    | _ => none
  | _ => none

theorem doWriteC_err_sink (c : BzCompressorW) (data : List Nat)
    (action : Action) (e : IoErr) (c1 : BzCompressorW)
    (h : c.do_write data action = some (.error (e, c1))) :
    c1.w.isSome = true := by
  unfold BzCompressorW.do_write at h
  cases hw : c.w with
  | none => rw [hw] at h; simp at h
  | some w0 =>
    rw [hw] at h
    dsimp only at h
    by_cases hb : 0 < c.buf.data.length
    · rw [if_pos hb] at h
      cases hwa : w0.writeAll c.buf.data with
      | error e2 =>
        rw [hwa] at h
        simp only [Option.some.injEq, Except.error.injEq, Prod.mk.injEq] at h
        obtain ⟨-, hc⟩ := h
        rw [← hc, hw]
        rfl
      | ok w1 =>
        rw [hwa] at h
        dsimp only at h
        split at h
        · simp at h
        · split at h
          · split at h
            · simp only [Option.some.injEq, Except.error.injEq,
                Prod.mk.injEq] at h
              obtain ⟨-, hc⟩ := h
              rw [← hc]
              rfl
            · simp at h
          · simp at h
    · rw [if_neg hb] at h
      dsimp only at h
      split at h
      · simp at h
      · split at h
        · split at h
          · simp only [Option.some.injEq, Except.error.injEq,
              Prod.mk.injEq] at h
            obtain ⟨-, hc⟩ := h
            rw [← hc]
            rfl
          · simp at h
        · simp at h

theorem doWriteD_err_sink (fuel : Nat) (c : BzDecompressorW) (data : List Nat)
    (action : Action) (e : IoErr) (c1 : BzDecompressorW)
    (h : BzDecompressorW.do_write fuel c data action = some (.error (e, c1))) :
    c1.w.isSome = true := by
  induction fuel generalizing c with
  | zero => simp [BzDecompressorW.do_write] at h
  | succ fuel ih =>
    unfold BzDecompressorW.do_write at h
    cases hw : c.w with
    | none => rw [hw] at h; simp at h
    | some w0 =>
      rw [hw] at h
      dsimp only at h
      repeat' split at h
      all_goals
        first
        | exact ih _ h
        | (simp only [Option.some.injEq, Except.error.injEq,
              Prod.mk.injEq] at h
           obtain ⟨-, hc⟩ := h
           rw [← hc]
           first
           | rfl
           | (rw [hw]; rfl))
        | simp at h

/-- C10: for every write-style adapter (compressor or decompressor), if the
explicit finalizing unwrap operation (`into_inner`) fails with an I/O error,
the adapter together with its still-owned wrapped sink is returned to the
caller alongside the error (the sink option slot is still occupied, so the
operation can be retried); the slot is taken only on success, in which case
the sink held in the slot after the final write is what is returned. -/
theorem c10_finalization_failure_atomicity :
    (∀ (c c1 : BzCompressorW) (e : IoErr),
      c.into_inner = some (.error (c1, e)) → c1.w.isSome = true) ∧
    (∀ (c : BzCompressorW) (w : MSink),
      c.into_inner = some (.ok w) →
        ∃ n c1, c.do_write [] .finish = some (.ok (n, c1)) ∧ c1.w = some w) ∧
    (∀ (fuel : Nat) (c c1 : BzDecompressorW) (e : IoErr),
      c.into_inner fuel = some (.error (c1, e)) → c1.w.isSome = true) ∧
    (∀ (fuel : Nat) (c : BzDecompressorW) (w : MSink),
      c.into_inner fuel = some (.ok w) →
        ∃ n c1, BzDecompressorW.do_write fuel c [] .finish = some (.ok (n, c1)) ∧
          c1.w = some w) := by
  refine ⟨?_, ?_, ?_, ?_⟩
  · intro c c1 e h
    unfold BzCompressorW.into_inner at h
    cases hdw : c.do_write [] .finish with
    | none => rw [hdw] at h; simp at h
    | some r =>
      rw [hdw] at h
      cases r with
      | error p =>
        obtain ⟨e2, c2⟩ := p
        simp only [Option.some.injEq, Except.error.injEq, Prod.mk.injEq] at h
        obtain ⟨hc, he⟩ := h
        subst hc
        subst he
        exact doWriteC_err_sink _ _ _ _ _ hdw
      | ok q =>
        obtain ⟨n, c2⟩ := q
        dsimp only at h
        cases hcw : c2.w with
        | none => rw [hcw] at h; simp at h
        | some w2 => rw [hcw] at h; simp at h
  · intro c w h
    unfold BzCompressorW.into_inner at h
    cases hdw : c.do_write [] .finish with
    | none => rw [hdw] at h; simp at h
    | some r =>
      rw [hdw] at h
      cases r with
      | error p =>
        obtain ⟨e2, c2⟩ := p
        simp at h
      | ok q =>
        obtain ⟨n, c2⟩ := q
        dsimp only at h
        cases hcw : c2.w with
        | none => rw [hcw] at h; simp at h
        | some w2 =>
          rw [hcw] at h
          simp only [Option.some.injEq, Except.ok.injEq] at h
          refine ⟨n, c2, rfl, ?_⟩
          rw [hcw, h]
  · intro fuel c c1 e h
    unfold BzDecompressorW.into_inner at h
    cases hdw : BzDecompressorW.do_write fuel c [] .finish with
    | none => rw [hdw] at h; simp at h
    | some r =>
      rw [hdw] at h
      cases r with
      | error p =>
        obtain ⟨e2, c2⟩ := p
        simp only [Option.some.injEq, Except.error.injEq, Prod.mk.injEq] at h
        obtain ⟨hc, he⟩ := h
        subst hc
        subst he
        exact doWriteD_err_sink _ _ _ _ _ _ hdw
      | ok q =>
        obtain ⟨n, c2⟩ := q
        dsimp only at h
        cases hcw : c2.w with
        | none => rw [hcw] at h; simp at h
        | some w2 => rw [hcw] at h; simp at h
  · intro fuel c w h
    unfold BzDecompressorW.into_inner at h
    cases hdw : BzDecompressorW.do_write fuel c [] .finish with
    | none => rw [hdw] at h; simp at h
    | some r =>
      rw [hdw] at h
      cases r with
      | error p =>
        obtain ⟨e2, c2⟩ := p
        simp at h
      | ok q =>
        obtain ⟨n, c2⟩ := q
        dsimp only at h
        cases hcw : c2.w with
        | none => rw [hcw] at h; simp at h
        | some w2 =>
          rw [hcw] at h
          simp only [Option.some.injEq, Except.ok.injEq] at h
          refine ⟨n, c2, rfl, ?_⟩
          rw [hcw, h]

/-- A compressor wrapping a broken sink with pending buffered output: its
`into_inner` fails with an I/O error. -/
def cbadC : BzCompressorW :=
  { stream := CmpSt.init,
    w := some { out := [], flushed := false, broken := true },
    buf := { data := [5], cap := 8 } }

theorem c10_finalization_failure_atomicity_witness :
    BzCompressorW.into_inner cbadC = some (.error (cbadC, .src 0)) ∧
      cbadC.w.isSome = true :=
  ⟨rfl, c10_finalization_failure_atomicity.1 cbadC cbadC (.src 0) rfl⟩

theorem doWriteD_done_run_diverges (fuel : Nat) (c : BzDecompressorW)
    (data : List Nat) (w0 : MSink) (hdone : c.done = true)
    (hw : c.w = some w0) (hok : w0.broken = false) :
    BzDecompressorW.do_write fuel c data .run = none := by
  induction fuel generalizing c w0 with
  | zero => rfl
  | succ fuel ih =>
    unfold BzDecompressorW.do_write
    rw [hw]
    by_cases hb : 0 < c.buf.data.length
    · simp only [hb, if_pos, MSink.writeAll, hok, Bool.false_eq_true, if_neg,
        not_false_eq_true, hdone, if_true, BZ_STREAM_END]
      norm_num
      exact ih _ _ rfl rfl rfl
    · simp only [hb, if_neg, not_false_eq_true, MSink.writeAll, hok,
        Bool.false_eq_true, hdone, if_true, BZ_STREAM_END]
      norm_num
      exact ih _ _ rfl rfl hok

/-- The `writer::BzDecompressor` state reached by writing the full compressed
member for the byte sequence `[7]` into a fresh decompressor over a `Vec`
sink: the member has ended, so `done` is set. -/
def doneDec : BzDecompressorW :=
  { stream := { phase := .fin, totalIn := 4, totalOut := 1 },
    w := some vecSink, buf := { data := [7], cap := 128 * 1024 }, done := true }

/-- C8: the claim fails on the code.  For `write::BzDecoder` writes past the
logical stream end are indeed no-ops, but `writer::BzDecompressor::do_write`
(src/src/writer.rs lines 118-148) loops forever on a write after `done`:
once `done` is true the step is skipped, so zero bytes are consumed, and the
`Action::Run if written == 0 => continue` arm repeats the loop without any
exit.  `doneDec` is reachable by writing the compressed member for `[7]`;
a subsequent write of one byte of trailing padding never returns, for every
fuel bound. -/
theorem c8_write_past_end_hangs :
    writeAllD 6 (BzDecompressorW.new vecSink) [66, 7, 255, 0] =
      some (.ok doneDec) ∧
    doneDec.done = true ∧
    ∀ fuel (data : List Nat),
      BzDecompressorW.do_write fuel doneDec data .run = none :=
  ⟨rfl, rfl, fun fuel data =>
    doWriteD_done_run_diverges fuel doneDec data vecSink rfl rfl rfl⟩

/-! ### The mid-layer safe codec API used by `bufread.rs` and `write.rs`

`bufread.rs` and `write.rs` use `Compress`, `Decompress`, `Status` and the
error types from the crate root of a later crate generation; those
definitions are not under `src/`, so they are modelled from the spec: the
four `*Ok` statuses and `StreamEnd` are `Ok` results, every negative native
code maps to an error value. -/

/-- Modelled from the spec: caller-visible status of a codec step. -/
inductive Status where
  | ok
  | flushOk
  | runOk
  | finishOk
  | streamEnd
deriving DecidableEq, Repr

/-- Modelled from the spec: the codec error taxonomy. -/
inductive BzErr where
  | sequence
  | param
  | mem
  | data
  | dataMagic
  | unexpectedEof
  | outbuffFull
  | config
deriving DecidableEq, Repr

/-- Modelled from the spec: mapping of native return codes to the mid-layer
`Result<Status, Error>`. -/
def mapCode (c : Int) : Except BzErr Status :=
  if c = BZ_OK then .ok .ok
  else if c = BZ_RUN_OK then .ok .runOk
  else if c = BZ_FLUSH_OK then .ok .flushOk
  else if c = BZ_FINISH_OK then .ok .finishOk
  else if c = BZ_STREAM_END then .ok .streamEnd
  else if c = BZ_SEQUENCE_ERROR then .error .sequence
  else if c = BZ_PARAM_ERROR then .error .param
  else if c = BZ_MEM_ERROR then .error .mem
  else if c = BZ_DATA_ERROR then .error .data
  else if c = BZ_DATA_ERROR_MAGIC then .error .dataMagic
  else if c = BZ_UNEXPECTED_EOF then .error .unexpectedEof
  else if c = BZ_OUTBUFF_FULL then .error .outbuffFull
  else .error .config

/-- Modelled from the spec: `Compress::compress` of the mid-layer API (one
native step into a caller buffer of size `room`). -/
def Compress.compress (s : CmpSt) (input : List Nat) (room : Nat)
    (action : Action) : CmpSt × List Nat × List Nat × Except BzErr Status :=
  let r := bzCompress s input room action
  (r.1, r.2.1, r.2.2.1, mapCode r.2.2.2)

/-- Modelled from the spec: `Compress::compress_vec` of the mid-layer API. -/
def Compress.compress_vec (s : CmpSt) (input : List Nat) (buf : BVec)
    (action : Action) : CmpSt × BVec × List Nat × Except BzErr Status :=
  let r := CmpSt.compress_vec s input buf action
  (r.1, r.2.1, r.2.2.1, mapCode r.2.2.2)

/-- Modelled from the spec: `Decompress::new` of the mid-layer API. -/
def Decompress.new (small : Bool) : DecSt := DecSt.init

/-- Modelled from the spec: `Decompress::decompress` of the mid-layer API. -/
def Decompress.decompress (s : DecSt) (input : List Nat) (room : Nat) :
    DecSt × List Nat × List Nat × Except BzErr Status :=
  let r := bzDecompress s input room
  (r.1, r.2.1, r.2.2.1, mapCode r.2.2.2)

/-- Modelled from the spec: `Decompress::decompress_vec` of the mid-layer
API. -/
def Decompress.decompress_vec (s : DecSt) (input : List Nat) (buf : BVec) :
    DecSt × BVec × List Nat × Except BzErr Status :=
  let r := DecSt.decompress_vec s input buf
  (r.1, r.2.1, r.2.2.1, mapCode r.2.2.2)

/-! ### The `BufRead`-based adapters of `src/src/bufread.rs` -/

/-- Model of a `BufRead` source: a byte list with a cursor.  `fill_buf`
returns the whole unread remainder (empty exactly at EOF); `failNow` makes
the next `fill_buf` return an I/O error. -/
structure BufSrc where
  data : List Nat
  pos : Nat
  failNow : Bool
deriving DecidableEq, Repr

/-- `BufRead::fill_buf` on the model source. -/
def BufSrc.fill_buf (s : BufSrc) : Except IoErr (List Nat) :=
  if s.failNow then .error (.src 1) else .ok (s.data.drop s.pos)

/-- `BufRead::consume` on the model source. -/
def BufSrc.consume (s : BufSrc) (n : Nat) : BufSrc := { s with pos := s.pos + n }

/-- The model source is exhausted. -/
def BufSrc.atEof (s : BufSrc) : Bool := (s.data.drop s.pos).isEmpty

/-- `bufread::BzEncoder` (src/src/bufread.rs lines 17-21). -/
structure BzEncoderBR where
  obj : BufSrc
  data : CmpSt
  done : Bool
deriving DecidableEq, Repr

/-- `bufread::BzEncoder::new`. -/
def BzEncoderBR.new (r : BufSrc) : BzEncoderBR :=
  { obj := r, data := CmpSt.init, done := false }

/-- Loop of `Read::read for bufread::BzEncoder` (src/src/bufread.rs lines
90-118), fuel-bounded; the produced bytes stand for the caller-buffer
content, their count for the returned `usize`.  The `unwrap` of a
compression error is a panic (`none`). -/
def BzEncoderBR.readLoop : Nat → BzEncoderBR → Nat →
    Option (Except IoErr (List Nat × BzEncoderBR))
  | 0, _, _ => none
  | fuel + 1, s, bufLen =>
    match s.obj.fill_buf with
    | .error e => some (.error e)
    | .ok input =>
      let action := if input = [] then Action.finish else Action.run
      let r := Compress.compress s.data input bufLen action
      let consumed := input.length - r.2.1.length
      let s1 := { s with obj := s.obj.consume consumed, data := r.1 }
      match r.2.2.2 with
      | .error _ => none
      | .ok st =>
        if r.2.2.1.length = 0 ∧ ¬input = [] ∧ 0 < bufLen then
          BzEncoderBR.readLoop fuel s1 bufLen
        else if st = .streamEnd then
          some (.ok (r.2.2.1, { s1 with done := true }))
        else some (.ok (r.2.2.1, s1))

/-- `Read::read for bufread::BzEncoder` (src/src/bufread.rs lines 86-119). -/
def BzEncoderBR.read (fuel : Nat) (s : BzEncoderBR) (bufLen : Nat) :
    Option (Except IoErr (List Nat × BzEncoderBR)) :=
  if s.done then some (.ok ([], s))
  else BzEncoderBR.readLoop fuel s bufLen

/-- `bufread::BzDecoder` (src/src/bufread.rs lines 27-32). -/
structure BzDecoderBR where
  obj : BufSrc
  data : DecSt
  done : Bool
  multi : Bool
deriving DecidableEq, Repr

/-- `bufread::BzDecoder::new`. -/
def BzDecoderBR.new (r : BufSrc) : BzDecoderBR :=
  { obj := r, data := Decompress.new false, done := false, multi := false }

/-- `BzDecoder::multi` (src/src/bufread.rs lines 155-158). -/
def BzDecoderBR.setMulti (s : BzDecoderBR) (flag : Bool) : BzDecoderBR :=
  { s with multi := flag }

/-- Loop of `Read::read for bufread::BzDecoder` (src/src/bufread.rs lines
199-227), fuel-bounded.  On `StreamEnd` with the source not at EOF in multi
mode the codec state is replaced by a fresh one and the call returns the
bytes read so far; decompression errors surface as invalid-data I/O
errors. -/
def BzDecoderBR.readLoop : Nat → BzDecoderBR → Nat →
    Option (Except IoErr (List Nat × BzDecoderBR))
  | 0, _, _ => none
  | fuel + 1, s, bufLen =>
    match s.obj.fill_buf with
    | .error e => some (.error e)
    | .ok input =>
      let r := Decompress.decompress s.data input bufLen
      let consumed := input.length - r.2.1.length
      let s1 := { s with obj := s.obj.consume consumed, data := r.1 }
      match r.2.2.2 with
      | .error _ => some (.error .invalidInput)
      | .ok st =>
        if st = .streamEnd then
          if ¬input = [] ∧ s1.multi = true then
            some (.ok (r.2.2.1, { s1 with data := Decompress.new false }))
          else
            some (.ok (r.2.2.1, { s1 with done := true }))
        else if 0 < r.2.2.1.length ∨ input = [] ∨ bufLen = 0 then
          some (.ok (r.2.2.1, s1))
        else
          BzDecoderBR.readLoop fuel s1 bufLen

/-- `Read::read for bufread::BzDecoder` (src/src/bufread.rs lines
195-228). -/
def BzDecoderBR.read (fuel : Nat) (s : BzDecoderBR) (bufLen : Nat) :
    Option (Except IoErr (List Nat × BzDecoderBR)) :=
  if s.done then some (.ok ([], s))
  else BzDecoderBR.readLoop fuel s bufLen

/-- `MultiBzDecoder::new` (src/src/bufread.rs lines 257-263): a `BzDecoder`
with multi mode enabled; the newtype wrapper delegates every call. -/
def MultiBzDecoderBR.new (r : BufSrc) : BzDecoderBR :=
  (BzDecoderBR.new r).setMulti true

/-- `Read::read_to_end` driver over a `bufread::BzDecoder`: reads with a
spare buffer of `bufLen` bytes until a read returns zero bytes, collecting
everything read. -/
def readToEnd : Nat → BzDecoderBR → Nat →
    Option (Except IoErr (List Nat × BzDecoderBR))
  | 0, _, _ => none
  | fuel + 1, s, bufLen =>
    match s.read (fuel + 1) bufLen with
    | none => none
    | some (.error e) => some (.error e)
    | some (.ok (chunk, s1)) =>
      if chunk.isEmpty then some (.ok ([], s1))
      else
        match readToEnd fuel s1 bufLen with
        | none => none
        | some (.error e) => some (.error e)
        | some (.ok (rest, s2)) => some (.ok (chunk ++ rest, s2))

/-! ### The write-oriented adapters of `src/src/write.rs` -/

/-- `write::BzEncoder` (src/src/write.rs lines 10-14). -/
structure BzEncoderWr where
  data : CmpSt
  obj : Option MSink
  buf : BVec
deriving DecidableEq, Repr

/-- `write::BzEncoder::new`: 32 KiB scratch capacity. -/
def BzEncoderWr.new (w : MSink) : BzEncoderWr :=
  { data := CmpSt.init, obj := some w, buf := { data := [], cap := 32 * 1024 } }

/-- `BzEncoder::dump` (src/src/write.rs lines 36-42). -/
def BzEncoderWr.dump (c : BzEncoderWr) : Option (Except IoErr BzEncoderWr) :=
  match c.obj with
  | none => none
  | some w =>
    if 0 < c.buf.data.length then
      match w.writeAll c.buf.data with
      | .error e => some (.error e)
      | .ok w1 =>
        some (.ok { c with obj := some w1, buf := { c.buf with data := [] } })
    else some (.ok c)

/-- Loop of `Write::write for write::BzEncoder` (src/src/write.rs lines
81-94): dump, one `Run` step, return the `total_in` delta once it is
positive or the data was empty. -/
def BzEncoderWr.writeLoop : Nat → BzEncoderWr → List Nat →
    Option (Except IoErr (Nat × BzEncoderWr))
  | 0, _, _ => none
  | fuel + 1, c, data =>
    match c.dump with
    | none => none
    | some (.error e) => some (.error e)
    | some (.ok c1) =>
      let before := c1.data.totalIn
      let r := Compress.compress_vec c1.data data c1.buf .run
      match r.2.2.2 with
      | .error _ => none
      | .ok _ =>
        let c2 := { c1 with data := r.1, buf := r.2.1 }
        let written := c2.data.totalIn - before
        if 0 < written ∨ data.length = 0 then some (.ok (written, c2))
        else BzEncoderWr.writeLoop fuel c2 data

/-- One iteration of `Write::flush for write::BzEncoder` (the body of the
loop at src/src/write.rs lines 97-106): dump, then one `Flush` step;
returns the stepped encoder and the `total_out` delta of the step. -/
def BzEncoderWr.flushIter (c : BzEncoderWr) :
    Option (Except IoErr (BzEncoderWr × Nat)) :=
  match c.dump with
  | none => none
  | some (.error e) => some (.error e)
  | some (.ok c1) =>
    let before := c1.data.totalOut
    let r := Compress.compress_vec c1.data [] c1.buf .flush
    match r.2.2.2 with
    | .error _ => none
    | .ok _ =>
      some (.ok ({ c1 with data := r.1, buf := r.2.1 }, r.1.totalOut - before))

/-- Loop of `Write::flush for write::BzEncoder` (src/src/write.rs lines
97-106): iterate until the `total_out` count stops increasing. -/
def BzEncoderWr.flushLoop : Nat → BzEncoderWr →
    Option (Except IoErr BzEncoderWr)
  | 0, _ => none
  | fuel + 1, c =>
    match c.flushIter with
    | none => none
    | some (.error e) => some (.error e)
    | some (.ok (c2, d)) =>
      if d = 0 then some (.ok c2)
      else BzEncoderWr.flushLoop fuel c2

/-- `Write::flush for write::BzEncoder` (src/src/write.rs lines 96-108):
the fixed-point loop, then flush the wrapped sink. -/
def BzEncoderWr.flush (fuel : Nat) (c : BzEncoderWr) :
    Option (Except IoErr BzEncoderWr) :=
  match BzEncoderWr.flushLoop fuel c with
  | none => none
  | some (.error e) => some (.error e)
  | some (.ok c1) =>
    match c1.obj with
    | none => none
    | some w =>
      match w.flush with
      | .error e => some (.error e)
      | .ok w1 => some (.ok { c1 with obj := some w1 })

/-- `write::BzDecoder` (src/src/write.rs lines 18-23). -/
structure BzDecoderWr where
  data : DecSt
  obj : Option MSink
  buf : BVec
  done : Bool
deriving DecidableEq, Repr

/-- `write::BzDecoder::new`. -/
def BzDecoderWr.new (w : MSink) : BzDecoderWr :=
  { data := Decompress.new false, obj := some w,
    buf := { data := [], cap := 32 * 1024 }, done := false }

/-- `BzDecoder::dump` (src/src/write.rs lines 131-137). -/
def BzDecoderWr.dump (c : BzDecoderWr) : Option (Except IoErr BzDecoderWr) :=
  match c.obj with
  | none => none
  | some w =>
    if 0 < c.buf.data.length then
      match w.writeAll c.buf.data with
      | .error e => some (.error e)
      | .ok w1 =>
        some (.ok { c with obj := some w1, buf := { c.buf with data := [] } })
    else some (.ok c)

/-- Loop of `Write::write for write::BzDecoder` (src/src/write.rs lines
173-190). -/
def BzDecoderWr.writeLoop : Nat → BzDecoderWr → List Nat →
    Option (Except IoErr (Nat × BzDecoderWr))
  | 0, _, _ => none
  | fuel + 1, c, data =>
    match c.dump with
    | none => none
    | some (.error e) => some (.error e)
    | some (.ok c1) =>
      let before := c1.data.totalIn
      let r := Decompress.decompress_vec c1.data data c1.buf
      let c2 := { c1 with data := r.1, buf := r.2.1 }
      let written := c2.data.totalIn - before
      match r.2.2.2 with
      | .error _ => some (.error .invalidInput)
      | .ok st =>
        let c3 := if st = .streamEnd then { c2 with done := true } else c2
        if 0 < written ∨ data.length = 0 ∨ c3.done = true then
          some (.ok (written, c3))
        else BzDecoderWr.writeLoop fuel c3 data

/-- `Write::write for write::BzDecoder` (src/src/write.rs lines 169-191):
once `done`, a write is a no-op returning zero. -/
def BzDecoderWr.write (fuel : Nat) (c : BzDecoderWr) (data : List Nat) :
    Option (Except IoErr (Nat × BzDecoderWr)) :=
  if c.done then some (.ok (0, c))
  else BzDecoderWr.writeLoop fuel c data

/-! ### The read-oriented adapters of `src/src/reader.rs` -/

/-- Model of a plain `Read` source for `reader.rs`: a byte list with a
cursor; a read yields up to the requested number of bytes. -/
structure RSrc where
  data : List Nat
  pos : Nat
  failNow : Bool
deriving DecidableEq, Repr

/-- `Read::read` on the model source, into a buffer of size `cap`. -/
def RSrc.read (s : RSrc) (cap : Nat) : Except IoErr (List Nat × RSrc) :=
  if s.failNow then .error (.src 2)
  else
    let chunk := (s.data.drop s.pos).take cap
    .ok (chunk, { s with pos := s.pos + chunk.length })

/-- The model source is exhausted. -/
def RSrc.atEof (s : RSrc) : Bool := (s.data.drop s.pos).isEmpty

/-- `reader::Inner` (src/src/reader.rs lines 19-26), generic in the stream
state: the 32 KiB scratch is represented by the freshly filled chunk
(`buf`), its filled length (`cap`) and the read cursor (`pos`). -/
structure InnerR (σ : Type) where
  stream : σ
  r : RSrc
  buf : List Nat
  cap : Nat
  pos : Nat
  done : Bool

/-- Loop of `Inner::read` (src/src/reader.rs lines 89-112), parameterized —
exactly as the source is — over the per-adapter closure `f`, which receives
the stream, the unread scratch region, the bytes-read-so-far offset and the
EOF flag, and returns the advanced stream and the native status code; the
bytes it wrote into the caller buffer are measured through the stream's
counters (`totIn`/`totOut`). -/
def innerReadLoop {σ : Type} (totIn totOut : σ → Nat)
    (f : σ → List Nat → Nat → Bool → σ × Int) :
    Nat → InnerR σ → Nat → Nat → Option (Except IoErr (Nat × InnerR σ))
  | 0, _, _, _ => none
  | fuel + 1, s, target, acc =>
    let refill : Except IoErr (InnerR σ × Bool) :=
      if s.pos = s.cap then
        match s.r.read (32 * 1024) with
        | .error e => .error e
        | .ok (chunk, r1) =>
          .ok ({ s with r := r1, buf := chunk, cap := chunk.length, pos := 0 },
            chunk.length = 0)
      else .ok (s, false)
    match refill with
    | .error e => some (.error e)
    | .ok (s1, eof0) =>
      let before_in := totIn s1.stream
      let before_out := totOut s1.stream
      let fr := f s1.stream ((s1.buf.take s1.cap).drop s1.pos) acc eof0
      let consumed := totIn fr.1 - before_in
      let produced := totOut fr.1 - before_out
      let s2 := { s1 with stream := fr.1, pos := s1.pos + consumed }
      let acc2 := acc + produced
      if fr.2 = BZ_STREAM_END then
        some (.ok (acc2, { s2 with done := true }))
      else if fr.2 = BZ_OUTBUFF_FULL ∨ 0 ≤ fr.2 then
        if target > acc2 ∧ eof0 = false then
          innerReadLoop totIn totOut f fuel s2 target acc2
        else some (.ok (acc2, s2))
      else some (.error .invalidInput)

/-- `Inner::read` (src/src/reader.rs lines 82-113): immediate zero once
`done`, otherwise the fuel-bounded loop starting from zero bytes read. -/
def innerRead {σ : Type} (totIn totOut : σ → Nat)
    (f : σ → List Nat → Nat → Bool → σ × Int) (fuel : Nat) (s : InnerR σ)
    (target : Nat) : Option (Except IoErr (Nat × InnerR σ)) :=
  if s.done then some (.ok (0, s))
  else innerReadLoop totIn totOut f fuel s target 0

/-- C3: for every read adapter, once the `done` flag is set, every read call
returns zero bytes with no error and leaves the whole adapter state —
including the wrapped source and the codec state — unchanged, so neither is
invoked again and `done` stays set. -/
theorem c3_idempotent_eof (fuel bufLen target : Nat) (se : BzEncoderBR)
    (sd : BzDecoderBR) {σ : Type} (totIn totOut : σ → Nat)
    (f : σ → List Nat → Nat → Bool → σ × Int) (si : InnerR σ)
    (he : se.done = true) (hd : sd.done = true) (hi : si.done = true) :
    BzEncoderBR.read fuel se bufLen = some (.ok ([], se)) ∧
      BzDecoderBR.read fuel sd bufLen = some (.ok ([], sd)) ∧
      innerRead totIn totOut f fuel si target = some (.ok (0, si)) := by
  refine ⟨?_, ?_, ?_⟩
  · simp [BzEncoderBR.read, he]
  · simp [BzDecoderBR.read, hd]
  · simp [innerRead, hi]

theorem c3_idempotent_eof_witness :
    ({ obj := { data := [1], pos := 0, failNow := false }, data := CmpSt.init,
        done := true } : BzEncoderBR).done = true ∧
    BzEncoderBR.read 5
      { obj := { data := [1], pos := 0, failNow := false }, data := CmpSt.init,
        done := true } 16 =
      some (.ok ([],
        { obj := { data := [1], pos := 0, failNow := false },
          data := CmpSt.init, done := true })) :=
  ⟨rfl,
    (c3_idempotent_eof 5 16 16
      { obj := { data := [1], pos := 0, failNow := false }, data := CmpSt.init,
        done := true }
      { obj := { data := [1], pos := 0, failNow := false },
        data := DecSt.init, done := true, multi := false }
      (fun _ => 0) (fun _ => 0) (fun st _ _ _ => (st, 0))
      { stream := (), r := { data := [], pos := 0, failNow := false },
        buf := [], cap := 0, pos := 0, done := true }
      rfl rfl rfl).1⟩

theorem atEof_consume (s : BufSrc) (n : Nat) (h : s.atEof = true) :
    (s.consume n).atEof = true := by
  simp only [BufSrc.atEof, BufSrc.consume, List.isEmpty_iff] at h ⊢
  have h2 : (s.data.drop s.pos).drop n = [] := by rw [h]; exact List.drop_nil
  rw [List.drop_drop] at h2
  exact h2

theorem fillBuf_empty_atEof (s : BufSrc) (h : s.fill_buf = .ok []) :
    s.atEof = true := by
  unfold BufSrc.fill_buf at h
  split at h
  · simp at h
  · simp only [Except.ok.injEq] at h
    simp [BufSrc.atEof, h]

theorem encReadLoop_zero (fuel : Nat) :
    ∀ (s : BzEncoderBR) (bufLen : Nat) (s' : BzEncoderBR),
      BzEncoderBR.readLoop fuel s bufLen = some (.ok ([], s')) →
      0 < bufLen → s'.obj.atEof = true := by
  induction fuel with
  | zero =>
    intro s bufLen s' h hbuf
    simp [BzEncoderBR.readLoop] at h
  | succ fuel ih =>
    intro s bufLen s' h hbuf
    unfold BzEncoderBR.readLoop at h
    cases hfb : s.obj.fill_buf with
    | error e => rw [hfb] at h; simp at h
    | ok input =>
      rw [hfb] at h
      dsimp only at h
      cases input with
      | cons b rest =>
        rw [if_neg (by simp : ¬(b :: rest : List Nat) = [])] at h
        cases hmc : (Compress.compress s.data (b :: rest) bufLen Action.run).2.2.2 with
        | error e2 => rw [hmc] at h; simp at h
        | ok st =>
          rw [hmc] at h
          dsimp only at h
          by_cases hlen :
              (Compress.compress s.data (b :: rest) bufLen Action.run).2.2.1.length = 0
          · rw [if_pos ⟨hlen, by simp, hbuf⟩] at h
            exact ih _ _ _ h hbuf
          · rw [if_neg (by simp [hlen])] at h
            split at h <;>
            · simp only [Option.some.injEq, Except.ok.injEq, Prod.mk.injEq] at h
              exact absurd (by rw [h.1] :
                (Compress.compress s.data (b :: rest) bufLen Action.run).2.2.1 = []) (by
                  intro hq
                  exact hlen (by rw [hq]; rfl))
      | nil =>
        rw [if_pos rfl] at h
        cases hmc : (Compress.compress s.data [] bufLen Action.finish).2.2.2 with
        | error e2 => rw [hmc] at h; simp at h
        | ok st =>
          rw [hmc] at h
          dsimp only at h
          rw [if_neg (by simp)] at h
          have heof : s.obj.atEof = true := fillBuf_empty_atEof s.obj hfb
          split at h <;>
          · simp only [Option.some.injEq, Except.ok.injEq, Prod.mk.injEq] at h
            rw [← h.2]
            exact atEof_consume _ _ heof

theorem decReadLoop_zero (fuel : Nat) :
    ∀ (s : BzDecoderBR) (bufLen : Nat) (s' : BzDecoderBR),
      BzDecoderBR.readLoop fuel s bufLen = some (.ok ([], s')) →
      0 < bufLen →
      s'.obj.atEof = true ∨ s'.done = true ∨ s'.data = Decompress.new false := by
  induction fuel with
  | zero =>
    intro s bufLen s' h hbuf
    simp [BzDecoderBR.readLoop] at h
  | succ fuel ih =>
    intro s bufLen s' h hbuf
    unfold BzDecoderBR.readLoop at h
    cases hfb : s.obj.fill_buf with
    | error e => rw [hfb] at h; simp at h
    | ok input =>
      rw [hfb] at h
      dsimp only at h
      cases hmc : (Decompress.decompress s.data input bufLen).2.2.2 with
      | error e2 => rw [hmc] at h; simp at h
      | ok st =>
        rw [hmc] at h
        dsimp only at h
        by_cases hse : st = Status.streamEnd
        · rw [if_pos hse] at h
          split at h
          · simp only [Option.some.injEq, Except.ok.injEq, Prod.mk.injEq] at h
            right; right
            rw [← h.2]
          · simp only [Option.some.injEq, Except.ok.injEq, Prod.mk.injEq] at h
            right; left
            rw [← h.2]
        · rw [if_neg hse] at h
          by_cases hret : 0 < (Decompress.decompress s.data input bufLen).2.2.1.length ∨
              input = [] ∨ bufLen = 0
          · rw [if_pos hret] at h
            simp only [Option.some.injEq, Except.ok.injEq, Prod.mk.injEq] at h
            have hlen : (Decompress.decompress s.data input bufLen).2.2.1.length = 0 := by
              rw [h.1]; rfl
            have hinp : input = [] := by
              rcases hret with h1 | h2 | h3
              · omega
              · exact h2
              · omega
            have heof : s.obj.atEof = true :=
              fillBuf_empty_atEof s.obj (by rw [hfb, hinp])
            left
            rw [← h.2]
            exact atEof_consume _ _ heof
          · rw [if_neg hret] at h
            exact ih _ _ _ h hbuf

theorem rsrcRead_empty_atEof (s : RSrc) (r1 : RSrc)
    (h : s.read (32 * 1024) = .ok ([], r1)) : r1.atEof = true := by
  unfold RSrc.read at h
  split at h
  · simp at h
  · simp only [Except.ok.injEq, Prod.mk.injEq] at h
    obtain ⟨hc, hr⟩ := h
    have hdrop : s.data.drop s.pos = [] := by
      cases hd : s.data.drop s.pos with
      | nil => rfl
      | cons x xs =>
        rw [hd] at hc
        simp [List.take_cons] at hc
    rw [← hr]
    simp [RSrc.atEof, hc, hdrop]

theorem innerReadLoop_zero {σ : Type} (totIn totOut : σ → Nat)
    (f : σ → List Nat → Nat → Bool → σ × Int) (fuel : Nat) :
    ∀ (s : InnerR σ) (target acc n : Nat) (s' : InnerR σ),
      innerReadLoop totIn totOut f fuel s target acc = some (.ok (n, s')) →
      n = 0 → 0 < target →
      s'.done = true ∨ s'.r.atEof = true := by
  induction fuel with
  | zero =>
    intro s target acc n s' h hn ht
    simp [innerReadLoop] at h
  | succ fuel ih =>
    intro s target acc n s' h hn ht
    unfold innerReadLoop at h
    dsimp only at h
    by_cases hpc : s.pos = s.cap
    · rw [if_pos hpc] at h
      cases hrd : s.r.read (32 * 1024) with
      | error e => rw [hrd] at h; simp at h
      | ok p =>
        obtain ⟨chunk, r1⟩ := p
        rw [hrd] at h
        dsimp only at h
        split at h
        · simp only [Option.some.injEq, Except.ok.injEq, Prod.mk.injEq] at h
          left
          rw [← h.2]
        · split at h
          · split at h
            · exact ih _ _ _ _ _ h hn ht
            · rename_i hcode hstop
              simp only [Option.some.injEq, Except.ok.injEq, Prod.mk.injEq] at h
              obtain ⟨hacc, hs⟩ := h
              have hchunk : chunk = [] := by
                by_contra hne
                apply hstop
                constructor
                · omega
                · cases chunk with
                  | nil => exact absurd rfl hne
                  | cons x xs => simp
              right
              rw [← hs]
              exact rsrcRead_empty_atEof s.r r1 (by rw [hrd, hchunk])
          · simp at h
    · rw [if_neg hpc] at h
      dsimp only at h
      split at h
      · simp only [Option.some.injEq, Except.ok.injEq, Prod.mk.injEq] at h
        left
        rw [← h.2]
      · split at h
        · split at h
          · exact ih _ _ _ _ _ h hn ht
          · rename_i hcode hstop
            simp only [Option.some.injEq, Except.ok.injEq, Prod.mk.injEq] at h
            obtain ⟨hacc, hs⟩ := h
            exfalso
            apply hstop
            constructor
            · omega
            · rfl
        · simp at h

/-- C2: no spurious zero.  For every read call on a read adapter with a
non-empty caller buffer that returns zero bytes with no error, either the
`done` flag was already set at entry, or the wrapped source had reached EOF,
or the codec reported StreamEnd during the call (observable as the exit
`done` flag, or — for the multi-member decoder — as the freshly
re-initialized codec state); a call producing zero bytes with the source not
exhausted instead retries internally. -/
theorem c2_no_spurious_zero :
    (∀ (fuel bufLen : Nat) (s s' : BzEncoderBR),
      BzEncoderBR.read fuel s bufLen = some (.ok ([], s')) → 0 < bufLen →
      s.done = true ∨ s'.obj.atEof = true) ∧
    (∀ (fuel bufLen : Nat) (s s' : BzDecoderBR),
      BzDecoderBR.read fuel s bufLen = some (.ok ([], s')) → 0 < bufLen →
      s.done = true ∨ s'.obj.atEof = true ∨ s'.done = true ∨
        s'.data = Decompress.new false) ∧
    (∀ {σ : Type} (totIn totOut : σ → Nat)
      (f : σ → List Nat → Nat → Bool → σ × Int) (fuel target : Nat)
      (s s' : InnerR σ),
      innerRead totIn totOut f fuel s target = some (.ok (0, s')) → 0 < target →
      s.done = true ∨ s'.done = true ∨ s'.r.atEof = true) := by
  refine ⟨?_, ?_, ?_⟩
  · intro fuel bufLen s s' h hbuf
    by_cases hd : s.done = true
    · exact Or.inl hd
    · rw [BzEncoderBR.read, if_neg hd] at h
      exact Or.inr (encReadLoop_zero fuel s bufLen s' h hbuf)
  · intro fuel bufLen s s' h hbuf
    by_cases hd : s.done = true
    · exact Or.inl hd
    · rw [BzDecoderBR.read, if_neg hd] at h
      exact Or.inr (decReadLoop_zero fuel s bufLen s' h hbuf)
  · intro σ totIn totOut f fuel target s s' h ht
    by_cases hd : s.done = true
    · exact Or.inl hd
    · rw [innerRead, if_neg hd] at h
      exact Or.inr (innerReadLoop_zero totIn totOut f fuel s target 0 0 s' h rfl ht)

theorem c2_no_spurious_zero_witness :
    BzDecoderBR.read 3 (BzDecoderBR.new { data := [], pos := 0, failNow := false })
        16 =
      some (.ok ([], BzDecoderBR.new { data := [], pos := 0, failNow := false })) ∧
      (0 : Nat) < 16 ∧
      ((BzDecoderBR.new { data := [], pos := 0, failNow := false }).done = true ∨
        (BzDecoderBR.new { data := [], pos := 0, failNow := false }).obj.atEof = true ∨
        (BzDecoderBR.new { data := [], pos := 0, failNow := false }).done = true ∨
        (BzDecoderBR.new { data := [], pos := 0, failNow := false }).data =
          Decompress.new false) :=
  ⟨rfl, by norm_num,
    c2_no_spurious_zero.2.1 3 16 _ _ rfl (by norm_num)⟩

/-- C9: error surfacing.  For `reader::Inner::read` — parameterized over the
per-adapter step closure exactly as the source is — any step status outside
the continue codes (`n >= 0`, which covers Ok/RunOk/FlushOk/FinishOk, plus
`BZ_OUTBUFF_FULL`) and `BZ_STREAM_END` makes the call return an invalid-data
error instead of bytes, and an I/O error of the wrapped source propagates
unchanged; likewise for `bufread::BzDecoder::read`, a decompression error
surfaces as an invalid-data error and a source error propagates unchanged. -/
theorem c9_error_surfacing :
    (∀ {σ : Type} (totIn totOut : σ → Nat)
      (f : σ → List Nat → Nat → Bool → σ × Int) (fuel target : Nat)
      (s : InnerR σ),
      s.done = false → s.r.failNow = false →
      (∀ st inp off eofb, (f st inp off eofb).2 < 0 ∧
        (f st inp off eofb).2 ≠ BZ_OUTBUFF_FULL) →
      innerRead totIn totOut f (fuel + 1) s target =
        some (.error .invalidInput)) ∧
    (∀ {σ : Type} (totIn totOut : σ → Nat)
      (f : σ → List Nat → Nat → Bool → σ × Int) (fuel target : Nat)
      (s : InnerR σ),
      s.done = false → s.pos = s.cap → s.r.failNow = true →
      innerRead totIn totOut f (fuel + 1) s target = some (.error (.src 2))) ∧
    (∀ (fuel bufLen : Nat) (s : BzDecoderBR) (e : BzErr),
      s.done = false → s.obj.failNow = false →
      (Decompress.decompress s.data (s.obj.data.drop s.obj.pos) bufLen).2.2.2 =
        .error e →
      BzDecoderBR.read (fuel + 1) s bufLen = some (.error .invalidInput)) ∧
    (∀ (fuel bufLen : Nat) (s : BzDecoderBR),
      s.done = false → s.obj.failNow = true →
      BzDecoderBR.read (fuel + 1) s bufLen = some (.error (.src 1))) := by
  refine ⟨?_, ?_, ?_, ?_⟩
  · intro σ totIn totOut f fuel target s hd hfail hf
    rw [innerRead, if_neg (by rw [hd]; exact Bool.false_ne_true)]
    unfold innerReadLoop
    dsimp only
    by_cases hpc : s.pos = s.cap
    · rw [if_pos hpc]
      rw [show s.r.read (32 * 1024) =
          .ok ((s.r.data.drop s.r.pos).take (32 * 1024),
            { s.r with pos := s.r.pos +
              ((s.r.data.drop s.r.pos).take (32 * 1024)).length }) from by
        unfold RSrc.read
        rw [if_neg (by rw [hfail]; exact Bool.false_ne_true)]]
      dsimp only
      set A := (s.r.data.drop s.r.pos).take (32 * 1024) with hA
      have h2 := hf s.stream ((A.take A.length).drop 0) 0 (decide (A.length = 0))
      rw [if_neg (by
        intro hq
        rw [hq] at h2
        norm_num [BZ_STREAM_END] at h2)]
      rw [if_neg (by
        push_neg
        exact ⟨h2.2, by omega⟩)]
    · rw [if_neg hpc]
      dsimp only
      have h2 := hf s.stream ((s.buf.take s.cap).drop s.pos) 0 false
      rw [if_neg (by
        intro hq
        rw [hq] at h2
        norm_num [BZ_STREAM_END] at h2)]
      rw [if_neg (by
        push_neg
        exact ⟨h2.2, by omega⟩)]
  · intro σ totIn totOut f fuel target s hd hpc hfail
    rw [innerRead, if_neg (by rw [hd]; exact Bool.false_ne_true)]
    unfold innerReadLoop
    dsimp only
    rw [if_pos hpc]
    rw [show s.r.read (32 * 1024) = .error (.src 2) from by
      unfold RSrc.read
      rw [if_pos hfail]]
  · intro fuel bufLen s e hd hfail hdec
    rw [BzDecoderBR.read, if_neg (by rw [hd]; exact Bool.false_ne_true)]
    unfold BzDecoderBR.readLoop
    rw [show s.obj.fill_buf = .ok (s.obj.data.drop s.obj.pos) from by
      unfold BufSrc.fill_buf
      rw [if_neg (by rw [hfail]; exact Bool.false_ne_true)]]
    dsimp only
    rw [hdec]
  · intro fuel bufLen s hd hfail
    rw [BzDecoderBR.read, if_neg (by rw [hd]; exact Bool.false_ne_true)]
    unfold BzDecoderBR.readLoop
    rw [show s.obj.fill_buf = .error (.src 1) from by
      unfold BufSrc.fill_buf
      rw [if_pos hfail]]

theorem c9_error_surfacing_witness :
    (BzDecoderBR.new { data := [9], pos := 0, failNow := false }).done = false ∧
      (BzDecoderBR.new { data := [9], pos := 0, failNow := false }).obj.failNow =
        false ∧
      (Decompress.decompress
          (BzDecoderBR.new { data := [9], pos := 0, failNow := false }).data
          ((BzDecoderBR.new { data := [9], pos := 0, failNow := false
            }).obj.data.drop
            (BzDecoderBR.new { data := [9], pos := 0, failNow := false }).obj.pos)
          16).2.2.2 = .error .dataMagic ∧
      BzDecoderBR.read 3 (BzDecoderBR.new { data := [9], pos := 0, failNow := false })
          16 =
        some (.error .invalidInput) :=
  ⟨rfl, rfl, rfl,
    c9_error_surfacing.2.2.1 2 16
      (BzDecoderBR.new { data := [9], pos := 0, failNow := false }) .dataMagic
      rfl rfl rfl⟩

/-- The decoder state after the first read call of the C6 failing input:
member A has been consumed (three source bytes), the codec state was
re-initialized, `done` is still false and the source is not at EOF. -/
def c6state : BzDecoderBR :=
  { obj := { data := [66, 255, 0, 66, 7, 255, 0], pos := 3, failNow := false },
    data := Decompress.new false, done := false, multi := true }

/-- C6: the claim fails on the code.  The spec requires
`decode_multi(encode(A) ++ encode(B)) == A ++ B` and, on StreamEnd with the
source not yet at EOF, re-initializing a fresh stream and continuing; but
`bufread::BzDecoder::read` (src/src/bufread.rs lines 215-222) returns
`Ok(read)` right after re-initializing instead of continuing the loop.  With
`A = []` the member for `A` decodes to zero bytes, so the first read call
returns `Ok(0)` with the source not at EOF — which every generic consumer,
`read_to_end` included, takes as end of stream — and the concatenation
decodes to `[]` instead of `A ++ B = [7]`. -/
theorem c6_multi_member_failing_input :
    libCompress [] = some [66, 255, 0] ∧
    libCompress [7] = some [66, 7, 255, 0] ∧
    BzDecoderBR.read 5
        (MultiBzDecoderBR.new
          { data := [66, 255, 0, 66, 7, 255, 0], pos := 0, failNow := false })
        1024 =
      some (.ok ([], c6state)) ∧
    c6state.obj.atEof = false ∧
    c6state.data = Decompress.new false ∧
    readToEnd 5
        (MultiBzDecoderBR.new
          { data := [66, 255, 0, 66, 7, 255, 0], pos := 0, failNow := false })
        1024 =
      some (.ok ([], c6state)) ∧
    ([] : List Nat) ≠ [] ++ [7] :=
  ⟨rfl, rfl, rfl, rfl, rfl, rfl, by simp⟩

theorem dumpE_data (c c1 : BzEncoderWr) (h : c.dump = some (.ok c1)) :
    c1.data = c.data := by
  unfold BzEncoderWr.dump at h
  repeat' split at h
  all_goals
    first
    | (simp only [Option.some.injEq, Except.ok.injEq] at h
       subst h
       rfl)
    | (subst h; rfl)
    | simp at h

theorem dumpD_data (c c1 : BzDecoderWr) (h : c.dump = some (.ok c1)) :
    c1.data = c.data ∧ c1.done = c.done := by
  unfold BzDecoderWr.dump at h
  repeat' split at h
  all_goals
    first
    | (simp only [Option.some.injEq, Except.ok.injEq] at h
       subst h
       exact ⟨rfl, rfl⟩)
    | (subst h; exact ⟨rfl, rfl⟩)
    | simp at h

theorem encWrite_consumed (fuel : Nat) :
    ∀ (c : BzEncoderWr) (data : List Nat) (n : Nat) (c' : BzEncoderWr),
      BzEncoderWr.writeLoop fuel c data = some (.ok (n, c')) →
      c'.data.totalIn = c.data.totalIn + n := by
  induction fuel with
  | zero =>
    intro c data n c' h
    simp [BzEncoderWr.writeLoop] at h
  | succ fuel ih =>
    intro c data n c' h
    unfold BzEncoderWr.writeLoop at h
    cases hdmp : c.dump with
    | none => rw [hdmp] at h; simp at h
    | some d =>
      rw [hdmp] at h
      cases d with
      | error e => simp at h
      | ok c1 =>
        dsimp only at h
        have hdd := dumpE_data c c1 hdmp
        have hmono : c1.data.totalIn ≤
            (Compress.compress_vec c1.data data c1.buf .run).1.totalIn :=
          (bzCompress_counters c1.data data (c1.buf.cap - c1.buf.data.length)
            .run).1
        cases hmc : (Compress.compress_vec c1.data data c1.buf .run).2.2.2 with
        | error e2 => rw [hmc] at h; simp at h
        | ok st =>
          rw [hmc] at h
          dsimp only at h
          split at h
          · simp only [Option.some.injEq, Except.ok.injEq, Prod.mk.injEq] at h
            obtain ⟨hn, hc⟩ := h
            rw [← hc, ← hn, ← hdd]
            dsimp only
            omega
          · rename_i hcond
            have h0 : (Compress.compress_vec c1.data data c1.buf .run).1.totalIn -
                c1.data.totalIn = 0 := by
              by_contra hne
              exact hcond (Or.inl (by omega))
            have := ih _ _ _ _ h
            rw [this]
            dsimp only
            rw [← hdd]
            omega

theorem decWrite_consumed (fuel : Nat) :
    ∀ (c : BzDecoderWr) (data : List Nat) (n : Nat) (c' : BzDecoderWr),
      BzDecoderWr.writeLoop fuel c data = some (.ok (n, c')) →
      c'.data.totalIn = c.data.totalIn + n := by
  induction fuel with
  | zero =>
    intro c data n c' h
    simp [BzDecoderWr.writeLoop] at h
  | succ fuel ih =>
    intro c data n c' h
    unfold BzDecoderWr.writeLoop at h
    cases hdmp : c.dump with
    | none => rw [hdmp] at h; simp at h
    | some d =>
      rw [hdmp] at h
      cases d with
      | error e => simp at h
      | ok c1 =>
        dsimp only at h
        have hdd := (dumpD_data c c1 hdmp).1
        have hmono : c1.data.totalIn ≤
            (Decompress.decompress_vec c1.data data c1.buf).1.totalIn :=
          (bzDecompress_counters c1.data data
            (c1.buf.cap - c1.buf.data.length)).1
        cases hmc : (Decompress.decompress_vec c1.data data c1.buf).2.2.2 with
        | error e2 => rw [hmc] at h; simp at h
        | ok st =>
          rw [hmc] at h
          dsimp only at h
          split at h <;> rename_i hc3 <;>
          · split at h
            · simp only [Option.some.injEq, Except.ok.injEq, Prod.mk.injEq] at h
              obtain ⟨hn, hc⟩ := h
              rw [← hc, ← hn, ← hdd]
              dsimp only
              omega
            · rename_i hcond
              have h0 : (Decompress.decompress_vec c1.data data c1.buf).1.totalIn -
                  c1.data.totalIn = 0 := by
                by_contra hne
                exact hcond (Or.inl (by omega))
              have := ih _ _ _ _ h
              rw [this]
              dsimp only
              rw [← hdd]
              omega

theorem doWriteC_consumed (c : BzCompressorW) (data : List Nat)
    (action : Action) (n : Nat) (c' : BzCompressorW)
    (h : c.do_write data action = some (.ok (n, c'))) :
    c'.stream.totalIn = c.stream.totalIn + n := by
  unfold BzCompressorW.do_write at h
  cases hw : c.w with
  | none => rw [hw] at h; simp at h
  | some w0 =>
    rw [hw] at h
    dsimp only at h
    by_cases hb : 0 < c.buf.data.length
    · rw [if_pos hb] at h
      cases hwa : w0.writeAll c.buf.data with
      | error e => rw [hwa] at h; simp at h
      | ok w1 =>
        rw [hwa] at h
        dsimp only at h
        have hmono : c.stream.totalIn ≤
            (CmpSt.compress_vec c.stream data
              ({ data := [], cap := c.buf.cap } : BVec) action).1.totalIn :=
          (bzCompress_counters c.stream data
            (({ data := [], cap := c.buf.cap } : BVec).cap -
              ({ data := [], cap := c.buf.cap } : BVec).data.length) action).1
        repeat' split at h
        all_goals
          first
          | (simp only [Option.some.injEq, Except.ok.injEq, Prod.mk.injEq] at h
             obtain ⟨hn, hc⟩ := h
             rw [← hc, ← hn]
             dsimp only
             omega)
          | simp at h
    · rw [if_neg hb] at h
      dsimp only at h
      have hmono : c.stream.totalIn ≤
          (CmpSt.compress_vec c.stream data c.buf action).1.totalIn :=
        (bzCompress_counters c.stream data
          (c.buf.cap - c.buf.data.length) action).1
      repeat' split at h
      all_goals
        first
        | (simp only [Option.some.injEq, Except.ok.injEq, Prod.mk.injEq] at h
           obtain ⟨hn, hc⟩ := h
           rw [← hc, ← hn]
           dsimp only
           omega)
        | simp at h

theorem doWriteD_consumed (fuel : Nat) :
    ∀ (c : BzDecompressorW) (data : List Nat) (action : Action) (n : Nat)
      (c' : BzDecompressorW),
      BzDecompressorW.do_write fuel c data action = some (.ok (n, c')) →
      c'.stream.totalIn = c.stream.totalIn + n := by
  induction fuel with
  | zero =>
    intro c data action n c' h
    simp [BzDecompressorW.do_write] at h
  | succ fuel ih =>
    intro c data action n c' h
    unfold BzDecompressorW.do_write at h
    cases hw : c.w with
    | none => rw [hw] at h; simp at h
    | some w0 =>
      rw [hw] at h
      dsimp only at h
      by_cases hb : 0 < c.buf.data.length
      · rw [if_pos hb] at h
        cases hwa : w0.writeAll c.buf.data with
        | error e => rw [hwa] at h; simp at h
        | ok w1 =>
          rw [hwa] at h
          dsimp only at h
          have hmono : c.stream.totalIn ≤
              (DecSt.decompress_vec c.stream data
                ({ data := [], cap := c.buf.cap } : BVec)).1.totalIn :=
            (bzDecompress_counters c.stream data
              (({ data := [], cap := c.buf.cap } : BVec).cap -
                ({ data := [], cap := c.buf.cap } : BVec).data.length)).1
          repeat' split at h
          all_goals
            first
            | (have hrec := ih _ _ _ _ _ h
               dsimp only at hrec
               omega)
            | (simp only [Option.some.injEq, Except.ok.injEq,
                 Prod.mk.injEq] at h
               obtain ⟨hn, hc⟩ := h
               rw [← hc, ← hn]
               dsimp only
               omega)
            | simp at h
      · rw [if_neg hb] at h
        dsimp only at h
        have hmono : c.stream.totalIn ≤
            (DecSt.decompress_vec c.stream data c.buf).1.totalIn :=
          (bzDecompress_counters c.stream data
            (c.buf.cap - c.buf.data.length)).1
        repeat' split at h
        all_goals
          first
          | (have hrec := ih _ _ _ _ _ h
             dsimp only at hrec
             omega)
          | (simp only [Option.some.injEq, Except.ok.injEq,
               Prod.mk.injEq] at h
             obtain ⟨hn, hc⟩ := h
             rw [← hc, ← hn]
             dsimp only
             omega)
          | simp at h

/-- C5: for every write call on a write-style adapter, the returned count is
exactly the number of input bytes the codec consumed during the whole call —
the delta of the stream's cumulative input counter across the call — not the
number of output bytes produced. -/
theorem c5_write_returns_consumed_input :
    (∀ (fuel : Nat) (c : BzEncoderWr) (data : List Nat) (n : Nat)
      (c' : BzEncoderWr),
      BzEncoderWr.writeLoop fuel c data = some (.ok (n, c')) →
      c'.data.totalIn = c.data.totalIn + n) ∧
    (∀ (fuel : Nat) (c : BzDecoderWr) (data : List Nat) (n : Nat)
      (c' : BzDecoderWr),
      BzDecoderWr.write fuel c data = some (.ok (n, c')) →
      c'.data.totalIn = c.data.totalIn + n) ∧
    (∀ (c : BzCompressorW) (data : List Nat) (n : Nat) (c' : BzCompressorW),
      c.write data = some (.ok (n, c')) →
      c'.stream.totalIn = c.stream.totalIn + n) ∧
    (∀ (fuel : Nat) (c : BzDecompressorW) (data : List Nat) (n : Nat)
      (c' : BzDecompressorW),
      BzDecompressorW.write fuel c data = some (.ok (n, c')) →
      c'.stream.totalIn = c.stream.totalIn + n) := by
  refine ⟨encWrite_consumed, ?_, ?_, ?_⟩
  · intro fuel c data n c' h
    unfold BzDecoderWr.write at h
    split at h
    · simp only [Option.some.injEq, Except.ok.injEq, Prod.mk.injEq] at h
      obtain ⟨hn, hc⟩ := h
      rw [← hc, ← hn]
      omega
    · exact decWrite_consumed fuel c data n c' h
  · intro c data n c' h
    unfold BzCompressorW.write at h
    split at h
    · exact doWriteC_consumed c data .run n c' h
    · simp only [Option.some.injEq, Except.ok.injEq, Prod.mk.injEq] at h
      obtain ⟨hn, hc⟩ := h
      rw [← hc, ← hn]
      omega
  · intro fuel c data n c' h
    exact doWriteD_consumed fuel c data .run n c' h

theorem c5_write_returns_consumed_input_witness :
    BzCompressorW.write (BzCompressorW.new vecSink) [1, 2, 3] =
      some (.ok (3,
        { stream :=
            { headerDone := true, finished := false, totalIn := 3, totalOut := 4 },
          w := some vecSink, buf := { data := [66, 1, 2, 3], cap := 128 * 1024 } })) ∧
      ({ stream :=
          { headerDone := true, finished := false, totalIn := 3, totalOut := 4 },
         w := some vecSink,
         buf := { data := [66, 1, 2, 3], cap := 128 * 1024 } } :
          BzCompressorW).stream.totalIn =
        (BzCompressorW.new vecSink).stream.totalIn + 3 :=
  ⟨rfl, c5_write_returns_consumed_input.2.2.1 (BzCompressorW.new vecSink)
    [1, 2, 3] 3 _ rfl⟩

/-- The iteration structure that claim C4 describes for a flush call:
repeatedly drain the scratch buffer and feed the codec one `Flush` step,
every step before the last producing output and the last producing none. -/
inductive FlushTrace : BzEncoderWr → BzEncoderWr → Prop where
  | last (c c1 : BzEncoderWr) :
      BzEncoderWr.flushIter c = some (.ok (c1, 0)) → FlushTrace c c1
  | step (c c1 c2 : BzEncoderWr) (d : Nat) :
      BzEncoderWr.flushIter c = some (.ok (c1, d)) → d ≠ 0 →
      FlushTrace c1 c2 → FlushTrace c c2

theorem flushLoop_trace (fuel : Nat) :
    ∀ (c c1 : BzEncoderWr),
      BzEncoderWr.flushLoop fuel c = some (.ok c1) → FlushTrace c c1 := by
  induction fuel with
  | zero =>
    intro c c1 h
    simp [BzEncoderWr.flushLoop] at h
  | succ fuel ih =>
    intro c c1 h
    unfold BzEncoderWr.flushLoop at h
    cases hit : c.flushIter with
    | none => rw [hit] at h; simp at h
    | some r =>
      rw [hit] at h
      cases r with
      | error e => simp at h
      | ok p =>
        obtain ⟨c2, d⟩ := p
        dsimp only at h
        by_cases hd : d = 0
        · rw [if_pos hd] at h
          simp only [Option.some.injEq, Except.ok.injEq] at h
          subst h
          rw [hd] at hit
          exact FlushTrace.last c c2 hit
        · rw [if_neg hd] at h
          exact FlushTrace.step c c2 c1 d hit hd (ih _ _ h)

/-- C4 counterexample: on a fresh `writer::BzCompressor` over a `Vec` sink,
`flush` performs a single `Flush` feed that produces one output byte (the
member header), stops without checking that the output count stopped
increasing, leaves that byte in the scratch buffer, and flushes the sink
while the sink has received nothing — the claimed drain-each-iteration,
repeat-until-no-new-output behavior would have left the scratch buffer
empty and the byte in the sink. -/
def c4state : BzCompressorW :=
  { stream := { headerDone := true, finished := false, totalIn := 0, totalOut := 1 },
    w := some { out := [], flushed := true, broken := false },
    buf := { data := [66], cap := 128 * 1024 } }

theorem c4_counterexample :
    BzCompressorW.flush (BzCompressorW.new vecSink) = some (.ok c4state) ∧
      c4state.stream.totalOut = 1 ∧ c4state.buf.data = [66] ∧
      c4state.w = some { out := [], flushed := true, broken := false } ∧
      ([] : List Nat) ≠ [66] :=
  ⟨rfl, rfl, rfl, rfl, by simp⟩

/-- C4 (amended): `write::BzEncoder::flush` does behave as claimed — it
repeatedly drains the scratch buffer and feeds the codec a `Flush` step
until the total output count stops increasing between consecutive steps
(`FlushTrace`), then flushes the wrapped sink; the older
`writer::BzCompressor::flush`, by contrast, performs exactly one `Flush`
feed, leaving any output of that step in the scratch buffer, and then
flushes the wrapped sink. -/
theorem c4_flush_fixed_point :
    (∀ (fuel : Nat) (c c2 : BzEncoderWr),
      BzEncoderWr.flush fuel c = some (.ok c2) →
      ∃ c1 w w1, FlushTrace c c1 ∧ c1.obj = some w ∧ w.flush = .ok w1 ∧
        c2 = { c1 with obj := some w1 }) ∧
    (∀ (c c2 : BzCompressorW),
      BzCompressorW.flush c = some (.ok c2) →
      ∃ n c1 w w1, c.do_write [] .flush = some (.ok (n, c1)) ∧
        c1.w = some w ∧ w.flush = .ok w1 ∧ c2 = { c1 with w := some w1 }) := by
  constructor
  · intro fuel c c2 h
    unfold BzEncoderWr.flush at h
    cases hlp : BzEncoderWr.flushLoop fuel c with
    | none => rw [hlp] at h; simp at h
    | some r =>
      rw [hlp] at h
      cases r with
      | error e => simp at h
      | ok c1 =>
        dsimp only at h
        cases hob : c1.obj with
        | none => rw [hob] at h; simp at h
        | some w =>
          rw [hob] at h
          dsimp only at h
          cases hwf : w.flush with
          | error e => rw [hwf] at h; simp at h
          | ok w1 =>
            rw [hwf] at h
            simp only [Option.some.injEq, Except.ok.injEq] at h
            exact ⟨c1, w, w1, flushLoop_trace fuel c c1 hlp, hob, hwf, h.symm⟩
  · intro c c2 h
    unfold BzCompressorW.flush at h
    cases hdw : c.do_write [] .flush with
    | none => rw [hdw] at h; simp at h
    | some r =>
      rw [hdw] at h
      cases r with
      | error p => obtain ⟨e, c1⟩ := p; simp at h
      | ok p =>
        obtain ⟨n, c1⟩ := p
        dsimp only at h
        cases hob : c1.w with
        | none => rw [hob] at h; simp at h
        | some w =>
          rw [hob] at h
          dsimp only at h
          cases hwf : w.flush with
          | error e => rw [hwf] at h; simp at h
          | ok w1 =>
            rw [hwf] at h
            simp only [Option.some.injEq, Except.ok.injEq] at h
            exact ⟨n, c1, w, w1, rfl, hob, hwf, h.symm⟩

def c4stateE : BzEncoderWr :=
  { data := { headerDone := true, finished := false, totalIn := 0, totalOut := 1 },
    obj := some { out := [66], flushed := true, broken := false },
    buf := { data := [], cap := 32 * 1024 } }

theorem c4_flush_fixed_point_witness :
    BzEncoderWr.flush 3 (BzEncoderWr.new vecSink) = some (.ok c4stateE) ∧
      ∃ c1 w w1, FlushTrace (BzEncoderWr.new vecSink) c1 ∧ c1.obj = some w ∧
        w.flush = .ok w1 ∧ c4stateE = { c1 with obj := some w1 } :=
  ⟨rfl, c4_flush_fixed_point.1 3 (BzEncoderWr.new vecSink) c4stateE rfl⟩

/-! ### Round trip of the one-shot helpers (`lib.rs::compress`/`decompress`) -/

theorem escAll_append (a b : List Nat) :
    escAll (a ++ b) = escAll a ++ escAll b := by
  induction a with
  | nil => simp [escAll]
  | cons x rest ih => simp [escAll, ih]

theorem esc_len_le (b : Nat) : (esc b).length ≤ 2 := by
  unfold esc
  split <;> simp

theorem runEsc_progress (b : Nat) (rest : List Nat) (room : Nat)
    (h : 2 ≤ room) : (runEsc (b :: rest) room).2.length ≤ rest.length := by
  unfold runEsc
  rw [if_pos (le_trans (esc_len_le b) h)]
  exact runEsc_rest_le rest (room - (esc b).length)

theorem drop_of_suffix (S rest t : List Nat) (h : S = t ++ rest) :
    S.drop (S.length - rest.length) = rest := by
  subst h
  rw [List.length_append, Nat.add_sub_cancel, List.drop_left]

theorem compress_vec_run_eval (hd : Bool) (t1 t2 : Nat) (S : List Nat) :
    CmpSt.compress_vec
      { headerDone := hd, finished := false, totalIn := t1, totalOut := t2 } S
      { data := [], cap := 128 * 1024 } .run =
    ({ headerDone := true, finished := false,
       totalIn := t1 + (S.length - (runEsc S (128 * 1024 -
         (if hd then ([] : List Nat) else [66]).length)).2.length),
       totalOut := t2 + ((if hd then ([] : List Nat) else [66]) ++
         (runEsc S (128 * 1024 -
           (if hd then ([] : List Nat) else [66]).length)).1).length },
     { data := (if hd then ([] : List Nat) else [66]) ++
         (runEsc S (128 * 1024 -
           (if hd then ([] : List Nat) else [66]).length)).1,
       cap := 128 * 1024 },
     (runEsc S (128 * 1024 -
       (if hd then ([] : List Nat) else [66]).length)).2,
     BZ_RUN_OK) := by
  cases hd <;> simp [CmpSt.compress_vec, bzCompress]

theorem doWriteC_run_ex (hd : Bool) (t1 t2 : Nat) (wo bd : List Nat)
    (fl : Bool) (S : List Nat) (hS : S ≠ []) :
    ∃ T : List Nat,
      S = T ++ (runEsc S (128 * 1024 -
        (if hd then ([] : List Nat) else [66]).length)).2 ∧
      T ≠ [] ∧
      (runEsc S (128 * 1024 -
        (if hd then ([] : List Nat) else [66]).length)).1 = escAll T ∧
      BzCompressorW.do_write
        { stream := { headerDone := hd, finished := false, totalIn := t1,
                      totalOut := t2 },
          w := some { out := wo, flushed := fl, broken := false },
          buf := { data := bd, cap := 128 * 1024 } } S .run =
      some (.ok (T.length,
        { stream := { headerDone := true, finished := false,
                      totalIn := t1 + T.length,
                      totalOut := t2 +
                        ((if hd then ([] : List Nat) else [66]) ++
                          escAll T).length },
          w := some { out := wo ++ bd, flushed := fl, broken := false },
          buf := { data := (if hd then ([] : List Nat) else [66]) ++ escAll T,
                   cap := 128 * 1024 } })) := by
  obtain ⟨T, hT, hout⟩ := runEsc_suffix S (128 * 1024 -
    (if hd then ([] : List Nat) else [66]).length)
  have hroom : 2 ≤ 128 * 1024 - (if hd then ([] : List Nat) else [66]).length := by
    by_cases hd2 : hd <;> simp [hd2]
  have hTne : T ≠ [] := by
    cases S with
    | nil => exact absurd rfl hS
    | cons b rest0 =>
      have hp := runEsc_progress b rest0 (128 * 1024 -
        (if hd then ([] : List Nat) else [66]).length) hroom
      intro hTnil
      rw [hTnil, List.nil_append] at hT
      have := congrArg List.length hT
      simp only [List.length_cons] at this
      omega
  have hlen : S.length - (runEsc S (128 * 1024 -
      (if hd then ([] : List Nat) else [66]).length)).2.length = T.length := by
    have hl2 := congrArg List.length hT
    rw [List.length_append] at hl2
    omega
  refine ⟨T, hT, hTne, hout, ?_⟩
  unfold BzCompressorW.do_write
  dsimp only
  by_cases hbd : 0 < bd.length
  · rw [if_pos hbd]
    rw [show MSink.writeAll { out := wo, flushed := fl, broken := false } bd =
      .ok { out := wo ++ bd, flushed := fl, broken := false } from rfl]
    dsimp only
    rw [compress_vec_run_eval]
    dsimp only
    rw [hlen, hout]
    rw [if_neg (by norm_num [BZ_RUN_OK])]
    rw [if_neg (by simp)]
    simp
  · rw [if_neg hbd]
    have hbdnil : bd = [] := by
      cases bd with
      | nil => rfl
      | cons x xs => simp at hbd
    subst hbdnil
    dsimp only
    rw [compress_vec_run_eval]
    dsimp only
    rw [hlen, hout]
    rw [if_neg (by norm_num [BZ_RUN_OK])]
    rw [if_neg (by simp)]
    simp

theorem writeAllC_spec (fuel : Nat) :
    ∀ (S : List Nat) (hd : Bool) (t1 t2 : Nat) (wo bd : List Nat) (fl : Bool),
      S.length + 1 ≤ fuel →
      ∃ (hd2 : Bool) (t1a t2a : Nat) (wo2 bd2 : List Nat),
        writeAllC fuel
          { stream := { headerDone := hd, finished := false, totalIn := t1,
                        totalOut := t2 },
            w := some { out := wo, flushed := fl, broken := false },
            buf := { data := bd, cap := 128 * 1024 } } S =
        some (.ok
          { stream := { headerDone := hd2, finished := false, totalIn := t1a,
                        totalOut := t2a },
            w := some { out := wo2, flushed := fl, broken := false },
            buf := { data := bd2, cap := 128 * 1024 } }) ∧
        (hd2 = true ↔ (hd = true ∨ S ≠ [])) ∧
        wo2 ++ bd2 = wo ++ bd ++
          (if hd = false ∧ S ≠ [] then [66] else []) ++ escAll S := by
  induction fuel with
  | zero =>
    intro S hd t1 t2 wo bd fl hfuel
    omega
  | succ fuel ih =>
    intro S hd t1 t2 wo bd fl hfuel
    by_cases hSnil : S = []
    · subst hSnil
      refine ⟨hd, t1, t2, wo, bd, ?_, by simp, by simp [escAll]⟩
      simp [writeAllC]
    · obtain ⟨T, hT, hTne, hout, heval⟩ :=
        doWriteC_run_ex hd t1 t2 wo bd fl S hSnil
      have hlenS := congrArg List.length hT
      rw [List.length_append] at hlenS
      have hTpos : 0 < T.length := by
        cases T with
        | nil => exact absurd rfl hTne
        | cons x xs => simp
      have hdrop : S.drop T.length =
          (runEsc S (128 * 1024 -
            (if hd then ([] : List Nat) else [66]).length)).2 := by
        conv_lhs => rw [hT]
        rw [List.drop_left]
      obtain ⟨hd2, t1a, t2a, wo2, bd2, heq, hiff, hjoint⟩ :=
        ih ((runEsc S (128 * 1024 -
            (if hd then ([] : List Nat) else [66]).length)).2) true
          (t1 + T.length)
          (t2 + ((if hd then ([] : List Nat) else [66]) ++ escAll T).length)
          (wo ++ bd) ((if hd then ([] : List Nat) else [66]) ++ escAll T) fl
          (by omega)
      refine ⟨hd2, t1a, t2a, wo2, bd2, ?_, ?_, ?_⟩
      · unfold writeAllC
        rw [if_neg (by simp [hSnil])]
        rw [BzCompressorW.write, if_pos (by simp [hSnil])]
        rw [heval]
        dsimp only
        rw [if_neg (by omega), hdrop]
        exact heq
      · rw [hiff]
        simp [hSnil]
      · have hESA : escAll S = escAll T ++
            escAll (runEsc S (128 * 1024 -
              (if hd then ([] : List Nat) else [66]).length)).2 := by
          conv_lhs => rw [hT]
          rw [escAll_append]
        rw [hjoint, hESA]
        by_cases hd2c : hd = true
        · simp [hd2c, List.append_assoc]
        · simp only [Bool.not_eq_true] at hd2c
          simp [hd2c, hSnil, List.append_assoc]
  
theorem intoInnerC (hd : Bool) (t1 t2 : Nat) (wo bd : List Nat) (fl : Bool) :
    BzCompressorW.into_inner
      { stream := { headerDone := hd, finished := false, totalIn := t1,
                    totalOut := t2 },
        w := some { out := wo, flushed := fl, broken := false },
        buf := { data := bd, cap := 128 * 1024 } } =
    some (.ok { out := (wo ++ bd) ++
                  ((if hd then ([] : List Nat) else [66]) ++ [255, 0]),
                flushed := fl, broken := false }) := by
  cases hd <;> cases bd <;>
    simp [BzCompressorW.into_inner, BzCompressorW.do_write, MSink.writeAll,
      CmpSt.compress_vec, bzCompress, runEsc, BZ_STREAM_END]

theorem libCompress_eq (S : List Nat) :
    libCompress S = some ([66] ++ escAll S ++ [255, 0]) := by
  obtain ⟨hd2, t1a, t2a, wo2, bd2, heq, hiff, hjoint⟩ :=
    writeAllC_spec (S.length + 1) S false 0 0 [] [] false (by omega)
  have hnew : BzCompressorW.new vecSink =
      { stream := { headerDone := false, finished := false, totalIn := 0,
                    totalOut := 0 },
        w := some { out := [], flushed := false, broken := false },
        buf := { data := [], cap := 128 * 1024 } } := rfl
  rw [libCompress, hnew, heq]
  dsimp only
  rw [intoInnerC]
  dsimp only
  rw [hjoint]
  by_cases hS : S = []
  · subst hS
    have hhd : hd2 = false := by
      cases hd2 with
      | false => rfl
      | true =>
        have h1 := hiff.mp rfl
        simp at h1
    subst hhd
    simp [escAll]
  · have hhd : hd2 = true := hiff.mpr (Or.inr hS)
    subst hhd
    simp [hS, List.append_assoc]
  
theorem escAll_len_ge (S : List Nat) : S.length ≤ (escAll S).length := by
  induction S with
  | nil => simp [escAll]
  | cons b rest ih =>
    have h1 : 1 ≤ (esc b).length := by
      by_cases hb : b = 255 <;> simp [esc, hb]
    simp only [escAll, List.length_append, List.length_cons]
    omega

/-- Modelled from the spec: mid-member decoder-state shape.  From phase `ph`
the remaining encoded input `rem` decodes to exactly `S2` followed by the
member terminator (in the escape phase the pending escaped byte heads `S2`). -/
def DShape (ph : DPhase) (rem S2 : List Nat) : Prop :=
  (ph = .magic ∧ rem = 66 :: (escAll S2 ++ [255, 0])) ∨
  (ph = .body ∧ rem = escAll S2 ++ [255, 0]) ∨
  (ph = .escp ∧ ∃ S3, S2 = 255 :: S3 ∧ rem = 255 :: (escAll S3 ++ [255, 0]))

theorem DShape_ne_nil (ph : DPhase) (rem S2 : List Nat)
    (h : DShape ph rem S2) : rem ≠ [] := by
  rcases h with ⟨h1, hr⟩ | ⟨h1, hr⟩ | ⟨h1, S3, h2, hr⟩ <;> subst hr <;> simp

theorem dstep_shape (S2 : List Nat) :
    ∀ (ph : DPhase) (rem : List Nat) (room : Nat),
      DShape ph rem S2 →
      (S2.length ≤ room →
        dstep rem ph room = (.fin, [], S2, BZ_STREAM_END)) ∧
      (room < S2.length →
        ∃ ph2 rem2,
          dstep rem ph room = (ph2, rem2, S2.take room, BZ_OK) ∧
          DShape ph2 rem2 (S2.drop room) ∧
          room + rem2.length ≤ rem.length) := by
  induction S2 with
  | nil =>
    intro ph rem room hsh
    rcases hsh with ⟨hph, hrem⟩ | ⟨hph, hrem⟩ | ⟨hph, S3, hS2, hrem⟩
    · subst hph; subst hrem
      exact ⟨fun h => by simp [escAll, dstep], fun hlt => absurd hlt (by simp)⟩
    · subst hph; subst hrem
      exact ⟨fun h => by simp [escAll, dstep], fun hlt => absurd hlt (by simp)⟩
    · simp at hS2
  | cons b S3 ih =>
    intro ph rem room hsh
    have hbody : ∀ room : Nat,
        ((b :: S3).length ≤ room →
          dstep (escAll (b :: S3) ++ [255, 0]) .body room =
            (.fin, [], b :: S3, BZ_STREAM_END)) ∧
        (room < (b :: S3).length →
          ∃ ph2 rem2,
            dstep (escAll (b :: S3) ++ [255, 0]) .body room =
              (ph2, rem2, (b :: S3).take room, BZ_OK) ∧
            DShape ph2 rem2 ((b :: S3).drop room) ∧
            room + rem2.length ≤ (escAll (b :: S3) ++ [255, 0]).length) := by
      intro room
      by_cases hb : b = 255
      · subst hb
        constructor
        · intro hle
          have h1 : ¬ room = 0 := by
            simp only [List.length_cons] at hle; omega
          have hfull := (ih .body (escAll S3 ++ [255, 0]) (room - 1)
              (Or.inr (Or.inl ⟨rfl, rfl⟩))).1
            (by simp only [List.length_cons] at hle; omega)
          simp [dstep, escAll, esc, h1, hfull]
        · intro hlt
          cases room with
          | zero =>
            refine ⟨.escp, 255 :: (escAll S3 ++ [255, 0]), ?_, ?_, ?_⟩
            · simp [dstep, escAll, esc]
            · simp only [List.drop_zero]
              exact Or.inr (Or.inr ⟨rfl, S3, rfl, rfl⟩)
            · simp [escAll, esc]
          | succ room2 =>
            obtain ⟨ph2, rem2, heq, hsh2, hbnd⟩ :=
              (ih .body (escAll S3 ++ [255, 0]) room2
                (Or.inr (Or.inl ⟨rfl, rfl⟩))).2
                (by simp only [List.length_cons] at hlt; omega)
            refine ⟨ph2, rem2, ?_, ?_, ?_⟩
            · simp [dstep, escAll, esc, heq]
            · simpa using hsh2
            · simp [escAll, esc] at hbnd ⊢
              omega
      · constructor
        · intro hle
          have h1 : ¬ room = 0 := by
            simp only [List.length_cons] at hle; omega
          have hfull := (ih .body (escAll S3 ++ [255, 0]) (room - 1)
              (Or.inr (Or.inl ⟨rfl, rfl⟩))).1
            (by simp only [List.length_cons] at hle; omega)
          simp [dstep, escAll, esc, hb, h1, hfull]
        · intro hlt
          cases room with
          | zero =>
            refine ⟨.body, escAll (b :: S3) ++ [255, 0], ?_, ?_, ?_⟩
            · simp [dstep, escAll, esc, hb]
            · simp only [List.drop_zero]
              exact Or.inr (Or.inl ⟨rfl, rfl⟩)
            · simp
          | succ room2 =>
            obtain ⟨ph2, rem2, heq, hsh2, hbnd⟩ :=
              (ih .body (escAll S3 ++ [255, 0]) room2
                (Or.inr (Or.inl ⟨rfl, rfl⟩))).2
                (by simp only [List.length_cons] at hlt; omega)
            refine ⟨ph2, rem2, ?_, ?_, ?_⟩
            · simp [dstep, escAll, esc, hb, heq]
            · simpa using hsh2
            · simp only [escAll, esc, if_neg hb, List.length_append,
                List.length_cons] at hbnd ⊢
              omega
    rcases hsh with ⟨hph, hrem⟩ | ⟨hph, hrem⟩ | ⟨hph, S4, hS2, hrem⟩
    · subst hph; subst hrem
      refine ⟨fun hle => ?_, fun hlt => ?_⟩
      · have h := (hbody room).1 hle
        simpa [dstep] using h
      · obtain ⟨ph2, rem2, heq, hsh2, hbnd⟩ := (hbody room).2 hlt
        refine ⟨ph2, rem2, ?_, hsh2, ?_⟩
        · simpa [dstep] using heq
        · simp only [List.length_cons] at hbnd ⊢
          omega
    · subst hph; subst hrem
      exact hbody room
    · obtain ⟨hbe, hSe⟩ : b = 255 ∧ S3 = S4 := by
        injection hS2 with h1 h2; exact ⟨h1, h2⟩
      subst hbe
      subst hSe
      subst hph; subst hrem
      refine ⟨fun hle => ?_, fun hlt => ?_⟩
      · have h1 : ¬ room = 0 := by
          simp only [List.length_cons] at hle; omega
        have hfull := (ih .body (escAll S3 ++ [255, 0]) (room - 1)
            (Or.inr (Or.inl ⟨rfl, rfl⟩))).1
          (by simp only [List.length_cons] at hle; omega)
        simp [dstep, h1, hfull]
      · cases room with
        | zero =>
          refine ⟨.escp, 255 :: (escAll S3 ++ [255, 0]), ?_, ?_, ?_⟩
          · simp [dstep]
          · simp only [List.drop_zero]
            exact Or.inr (Or.inr ⟨rfl, S3, rfl, rfl⟩)
          · simp
        | succ room2 =>
          obtain ⟨ph2, rem2, heq, hsh2, hbnd⟩ :=
            (ih .body (escAll S3 ++ [255, 0]) room2
              (Or.inr (Or.inl ⟨rfl, rfl⟩))).2
              (by simp only [List.length_cons] at hlt; omega)
          refine ⟨ph2, rem2, ?_, ?_, ?_⟩
          · simp [dstep, heq]
          · simpa using hsh2
          · simp only [List.length_cons, List.length_append] at hbnd ⊢
            omega
  
theorem doWriteD_run_end (ph : DPhase) (t1 t2 : Nat) (wo bd : List Nat)
    (fl : Bool) (data out2 : List Nat) (fuel : Nat)
    (hstep : dstep data ph (128 * 1024) = (.fin, [], out2, BZ_STREAM_END))
    (hne : data ≠ []) :
    BzDecompressorW.do_write (fuel + 1)
      { stream := { phase := ph, totalIn := t1, totalOut := t2 },
        w := some { out := wo, flushed := fl, broken := false },
        buf := { data := bd, cap := 128 * 1024 }, done := false } data .run =
    some (.ok (data.length,
      { stream := { phase := .fin, totalIn := t1 + data.length,
                    totalOut := t2 + out2.length },
        w := some { out := wo ++ bd, flushed := fl, broken := false },
        buf := { data := out2, cap := 128 * 1024 }, done := true })) := by
  cases bd <;>
    simp [BzDecompressorW.do_write, MSink.writeAll, DecSt.decompress_vec,
      bzDecompress, hstep, hne, BZ_STREAM_END]

theorem doWriteD_run_more (ph : DPhase) (t1 t2 : Nat) (wo bd : List Nat)
    (fl : Bool) (data : List Nat) (ph2 : DPhase) (rem2 out2 : List Nat)
    (fuel : Nat)
    (hstep : dstep data ph (128 * 1024) = (ph2, rem2, out2, BZ_OK))
    (hlt : rem2.length < data.length) :
    BzDecompressorW.do_write (fuel + 1)
      { stream := { phase := ph, totalIn := t1, totalOut := t2 },
        w := some { out := wo, flushed := fl, broken := false },
        buf := { data := bd, cap := 128 * 1024 }, done := false } data .run =
    some (.ok (data.length - rem2.length,
      { stream := { phase := ph2, totalIn := t1 + (data.length - rem2.length),
                    totalOut := t2 + out2.length },
        w := some { out := wo ++ bd, flushed := fl, broken := false },
        buf := { data := out2, cap := 128 * 1024 }, done := false })) := by
  have hz : ¬ (data.length - rem2.length = 0) := by omega
  cases bd <;>
    simp [BzDecompressorW.do_write, MSink.writeAll, DecSt.decompress_vec,
      bzDecompress, hstep, hz, BZ_STREAM_END, BZ_OK]

theorem writeAllD_nil (fuel : Nat) (c : BzDecompressorW) :
    writeAllD (fuel + 1) c [] = some (.ok c) := by
  simp [writeAllD]

theorem writeAllD_spec (fuel : Nat) :
    ∀ (S2 data : List Nat) (ph : DPhase) (t1 t2 : Nat) (wo bd : List Nat)
      (fl : Bool),
      DShape ph data S2 →
      S2.length + 2 ≤ fuel →
      ∃ (t1a t2a : Nat) (wo2 bd2 : List Nat),
        writeAllD fuel
          { stream := { phase := ph, totalIn := t1, totalOut := t2 },
            w := some { out := wo, flushed := fl, broken := false },
            buf := { data := bd, cap := 128 * 1024 }, done := false } data =
        some (.ok
          { stream := { phase := .fin, totalIn := t1a, totalOut := t2a },
            w := some { out := wo2, flushed := fl, broken := false },
            buf := { data := bd2, cap := 128 * 1024 }, done := true }) ∧
        wo2 ++ bd2 = wo ++ bd ++ S2 := by
  induction fuel with
  | zero =>
    intro S2 data ph t1 t2 wo bd fl hsh hfuel
    omega
  | succ fuel ih =>
    intro S2 data ph t1 t2 wo bd fl hsh hfuel
    have hne : data ≠ [] := DShape_ne_nil ph data S2 hsh
    by_cases hfull : S2.length ≤ 128 * 1024
    · have hstep := (dstep_shape S2 ph data (128 * 1024) hsh).1 hfull
      have hdw := doWriteD_run_end ph t1 t2 wo bd fl data S2 data.length
        hstep hne
      refine ⟨t1 + data.length, t2 + S2.length, wo ++ bd, S2, ?_, by simp⟩
      unfold writeAllD
      rw [if_neg (by simp [hne])]
      simp only [BzDecompressorW.write]
      rw [hdw]
      dsimp only
      rw [if_neg (by simp [hne]), List.drop_length]
      obtain ⟨fuel2, rfl⟩ : ∃ k, fuel = k + 1 := ⟨fuel - 1, by omega⟩
      rw [writeAllD_nil]
    · push_neg at hfull
      obtain ⟨ph2, rem2, heq, hsh2, hbnd⟩ :=
        (dstep_shape S2 ph data (128 * 1024) hsh).2 hfull
      have hlt : rem2.length < data.length := by omega
      have hdw := doWriteD_run_more ph t1 t2 wo bd fl data ph2 rem2
        (S2.take (128 * 1024)) data.length heq hlt
      obtain ⟨t, ht⟩ := dstep_in_suffix data ph (128 * 1024)
      rw [heq] at ht
      dsimp only at ht
      have htl : t.length = data.length - rem2.length := by
        have h2 := congrArg List.length ht
        simp only [List.length_append] at h2
        omega
      have hdrop : data.drop (data.length - rem2.length) = rem2 := by
        rw [← htl]
        conv_lhs => rw [ht]
        rw [List.drop_left]
      obtain ⟨t1a, t2a, wo2, bd2, heq2, hjoint⟩ :=
        ih (S2.drop (128 * 1024)) rem2 ph2 (t1 + (data.length - rem2.length))
          (t2 + (S2.take (128 * 1024)).length) (wo ++ bd)
          (S2.take (128 * 1024)) fl hsh2
          (by simp only [List.length_drop]; omega)
      refine ⟨t1a, t2a, wo2, bd2, ?_, ?_⟩
      · unfold writeAllD
        rw [if_neg (by simp [hne])]
        simp only [BzDecompressorW.write]
        rw [hdw]
        dsimp only
        rw [if_neg (by omega), hdrop]
        exact heq2
      · rw [hjoint]
        simp [List.append_assoc]
  
theorem intoInnerD (fuel t1 t2 : Nat) (ph : DPhase) (wo bd : List Nat)
    (fl : Bool) :
    BzDecompressorW.into_inner (fuel + 1)
      { stream := { phase := ph, totalIn := t1, totalOut := t2 },
        w := some { out := wo, flushed := fl, broken := false },
        buf := { data := bd, cap := 128 * 1024 }, done := true } =
    some (.ok { out := wo ++ bd, flushed := fl, broken := false }) := by
  cases bd <;>
    simp [BzDecompressorW.into_inner, BzDecompressorW.do_write, MSink.writeAll,
      BZ_STREAM_END]

theorem libDecompress_eq (S : List Nat) :
    libDecompress ([66] ++ escAll S ++ [255, 0]) = some S := by
  have hsh : DShape .magic ([66] ++ escAll S ++ [255, 0]) S :=
    Or.inl ⟨rfl, rfl⟩
  have hlen := escAll_len_ge S
  obtain ⟨t1a, t2a, wo2, bd2, heq, hjoint⟩ :=
    writeAllD_spec (([66] ++ escAll S ++ [255, 0]).length + 1)
      S ([66] ++ escAll S ++ [255, 0]) .magic 0 0 [] [] false hsh
      (by simp; omega)
  have hnew : BzDecompressorW.new vecSink =
      { stream := { phase := .magic, totalIn := 0, totalOut := 0 },
        w := some { out := [], flushed := false, broken := false },
        buf := { data := [], cap := 128 * 1024 }, done := false } := rfl
  rw [libDecompress, hnew, heq]
  dsimp only
  rw [intoInnerD]
  dsimp only
  rw [hjoint]
  simp

/-- C1: round-trip through the one-shot helpers built on the write adapters
(`compress`/`decompress` from `src/src/lib.rs` over the `writer.rs`
adapters): for every byte sequence `S` — including the empty sequence and
sequences longer than the 128 KiB scratch capacity — decompressing the
compressed form of `S` yields exactly `S` (and the compressed form is the
model member `[66] ++ escAll S ++ [255, 0]`). -/
theorem c1_round_trip (S : List Nat) :
    (libCompress S).bind libDecompress = some S ∧
    libCompress S = some ([66] ++ escAll S ++ [255, 0]) := by
  refine ⟨?_, libCompress_eq S⟩
  rw [libCompress_eq S, Option.some_bind]
  exact libDecompress_eq S
  
end Bzip2
